import Mathlib

/-!
Verification development for the RWM (Resumable Working Memory) MCP server.

This file gives a shallow embedding, in Lean 4, of the memory engine of the
repository: the ID helpers (`src/utils.ts`), the token-estimation heuristic
(`src/tokenizer.ts`), the relational store operations (`src/db.ts`), the
state-frame commit pipeline and artifact store (`src/stateframe.ts`), the
bundle composer (`src/bundle.ts`), the session resolver (`session.ts`) and the
`memory_fetch` handler (`src/index.ts`).  JavaScript strings are modelled as
Lean `String`s, byte buffers as the `String` whose UTF-8 encoding they are,
the artifact pool directory as an association list from file name to file
contents, and SQL tables as lists of typed rows.  The SHA-256 function, the
random-id source, the workspace filesystem, the git-branch lookup, the clock
and the optional BPE tokenizer backends are impure inputs of the original
program; they are passed to the embedded definitions as explicit function
parameters.
-/

namespace RWM

/-! ## Generic JavaScript string helpers -/

/-- Characters treated as whitespace by JavaScript `trim` and the `\s` /
`\S` regex classes (restricted to the ASCII range, which is all the code
under study feeds to them). -/
def jsWhitespace (c : Char) : Bool :=
  c = ' ' || c = '\t' || c = '\n' || c = '\r' || c = Char.ofNat 11 || c = Char.ofNat 12

/-- Model of JavaScript `String.prototype.trim`. -/
def jsTrimList (l : List Char) : List Char :=
  ((l.dropWhile jsWhitespace).reverse.dropWhile jsWhitespace).reverse

/-- Model of JavaScript `String.prototype.trim` on `String`. -/
def jsTrim (s : String) : String :=
  String.mk (jsTrimList s.toList)

/-- Model of JavaScript `s.split(sep, 2)`: the first component is the text
before the first separator; the second is `none` when no separator occurs,
else the text strictly between the first separator and the following one
(or the end of the string). -/
def breakAtChar (sep : Char) : List Char → List Char × Option (List Char)
  | [] => ([], none)
  | c :: rest =>
    if c = sep then ([], some (rest.takeWhile (fun d => d ≠ sep)))
    else
      let (a, b) := breakAtChar sep rest
      (c :: a, b)

/-- Model of `s.split(sep, 2)` on `String`, returning `(first, second?)`. -/
def splitAtFirst2 (sep : Char) (s : String) : String × Option String :=
  let (a, b) := breakAtChar sep s.toList
  (String.mk a, b.map String.mk)

/-- Worker of `collapseRuns`: `inBad` records whether the previous character
belonged to a run of bad characters already replaced by a dash. -/
def collapseRunsAux (good : Char → Bool) : List Char → Bool → List Char
  | [], _ => []
  | c :: rest, inBad =>
    if good c then c :: collapseRunsAux good rest false
    else if inBad then collapseRunsAux good rest true
    else '-' :: collapseRunsAux good rest true

/-- Model of the JavaScript regex replacement `s.replace(/BAD+/g, "-")`: every
maximal run of characters failing `good` collapses to a single dash. -/
def collapseRuns (good : Char → Bool) (l : List Char) : List Char :=
  collapseRunsAux good l false

theorem collapseRunsAux_all_good (good : Char → Bool) (l : List Char)
    (h : ∀ c ∈ l, good c = true) : ∀ flag, collapseRunsAux good l flag = l := by
  induction l with
  | nil => intro flag; rfl
  | cons c rest ih =>
    intro flag
    have hc : good c = true := h c (by simp)
    show (if good c then c :: collapseRunsAux good rest false else _) = _
    rw [if_pos hc, ih (fun d hd => h d (by simp [hd])) false]

theorem collapseRuns_all_good (good : Char → Bool) (l : List Char)
    (h : ∀ c ∈ l, good c = true) : collapseRuns good l = l :=
  collapseRunsAux_all_good good l h false

theorem mem_collapseRunsAux (good : Char → Bool) (l : List Char) (c : Char) :
    ∀ flag, c ∈ collapseRunsAux good l flag → good c = true ∨ c = '-' := by
  induction l with
  | nil => intro flag h; simp [collapseRunsAux] at h
  | cons d rest ih =>
    intro flag h
    by_cases hd : good d
    · rw [show collapseRunsAux good (d :: rest) flag =
        d :: collapseRunsAux good rest false from by
          simp [collapseRunsAux, hd]] at h
      rcases List.mem_cons.mp h with rfl | h
      · exact Or.inl hd
      · exact ih false h
    · cases flag with
      | true =>
        rw [show collapseRunsAux good (d :: rest) true =
          collapseRunsAux good rest true from by simp [collapseRunsAux, hd]] at h
        exact ih true h
      | false =>
        rw [show collapseRunsAux good (d :: rest) false =
          '-' :: collapseRunsAux good rest true from by
            simp [collapseRunsAux, hd]] at h
        rcases List.mem_cons.mp h with rfl | h
        · exact Or.inr rfl
        · exact ih true h

theorem mem_collapseRuns (good : Char → Bool) (l : List Char) (c : Char)
    (h : c ∈ collapseRuns good l) : good c = true ∨ c = '-' :=
  mem_collapseRunsAux good l c false h

/-! ## ID helpers (`src/utils.ts` / `session.ts` `sanitizeIdPart`) -/

/-- The character class `[A-Za-z0-9._-]` of `sanitizeIdPart`. -/
def isIdChar (c : Char) : Bool :=
  (decide ('A' ≤ c) && decide (c ≤ 'Z')) || (decide ('a' ≤ c) && decide (c ≤ 'z')) ||
    (decide ('0' ≤ c) && decide (c ≤ '9')) || c = '.' || c = '_' || c = '-'

/-- The function `sanitizeIdPart` from `session.ts`: replace runs of `[^A-Za-z0-9._-]` with
`"-"`, returning `"proj"` when the result is empty
(`part.replace(/[^A-Za-z0-9._-]+/g, "-") || "proj"`). -/
def sanitizeIdPart (part : String) : String :=
  if String.mk (collapseRuns isIdChar part.toList) = "" then "proj"
  else String.mk (collapseRuns isIdChar part.toList)

/-- The character class `[a-z0-9]` of the task-id slug. -/
def isSlugChar (c : Char) : Bool :=
  (decide ('a' ≤ c) && decide (c ≤ 'z')) || (decide ('0' ≤ c) && decide (c ≤ '9'))

/-- The function `buildTaskId` from `src/stateframe.ts`:
`"T-" + task.toLowerCase().replace(/[^a-z0-9]+/g, "-").slice(0, 12)`
(`toLowerCase` modelled per character). -/
def buildTaskId (task : String) : String :=
  "T-" ++ String.mk
    ((collapseRuns isSlugChar (task.toList.map Char.toLower)).take 12)

/-- The function `factIdFor` from `src/utils.ts`: the scope defaults to `"repo"` when the
supplied scope is the (JavaScript-falsy) empty string, and the id is
`"F-"` followed by the first 16 hex characters of the SHA-256 of
`key + "::" + scope`.  `hash` is the SHA-256 function, passed explicitly. -/
def factIdFor (hash : String → String) (key scope : String) : String :=
  let normalizedScope := if scope = "" then "repo" else scope
  "F-" ++ (hash (key ++ "::" ++ normalizedScope)).take 16

/-! ## Token estimation (`src/tokenizer.ts`) -/

/-- Number of maximal runs of non-whitespace characters, i.e. the number of
matches of `/\S+/g`. -/
def countWordsAux : List Char → Bool → Nat
  | [], _ => 0
  | c :: rest, inWord =>
    if jsWhitespace c then countWordsAux rest false
    else (if inWord then 0 else 1) + countWordsAux rest true

/-- The punctuation class counted by the fallback heuristic:
period, comma, semicolon, colon, bang, question mark, round/square/curly
brackets, double quote, single quote and backtick. -/
def punctChars : List Char :=
  ['.', ',', ';', ':', '!', '?', Char.ofNat 40, Char.ofNat 41, Char.ofNat 91,
    Char.ofNat 93, Char.ofNat 123, Char.ofNat 125, Char.ofNat 34, Char.ofNat 39,
    Char.ofNat 96]

/-- The fallback heuristic of `estimateTokens`:
`max(1, ceil(words * 1.25 + punct * 0.5 + nonAscii * 0.5))`, which on the
exact dyadic values involved equals `max 1 ((5w + 2p + 2n + 3) / 4)` over the
naturals. -/
def heuristicEstimate (text : String) : Nat :=
  let words := countWordsAux text.toList false
  let punct := (text.toList.filter (fun c => punctChars.contains c)).length
  let nonAscii := (text.toList.filter (fun c => decide (127 < c.toNat))).length
  max 1 ((5 * words + 2 * punct + 2 * nonAscii + 3) / 4)

/-- The function `estimateTokens` from `src/tokenizer.ts`.  The two optional BPE backends
(`gpt-tokenizer` and the Anthropic tokenizer) are probed at startup and may be
absent; they are modelled as optional counting functions. -/
def estimateTokens (openaiEncodeLen anthropicCount : Option (String → Nat))
    (family : String) (text : String) : Nat :=
  match family, openaiEncodeLen, anthropicCount with
  | "openai", some f, _ => f text
  | "anthropic", _, some g => g text
  | _, _, _ => heuristicEstimate text

/-! ## Data model (`src/db.ts` schema) -/

/-- The `origin` stamp stored inside an artifact's `meta_json`. -/
structure Origin where
  type : String
  recordedAt : String
deriving Repr, DecidableEq

/-- The `{path, startLine, endLine}` enrichment merged into meta by the
path branch of `prepareArtifact`. -/
structure PathInfo where
  path : String
  startLine : Nat
  endLine : Nat
deriving Repr, DecidableEq

/-- The caller-visible meta object of an artifact.  JavaScript metas are open
objects; the fields the engine itself reads or writes are modelled, with
`none` standing for an absent property. -/
structure Meta where
  origin : Option Origin := none
  pointer : Option Bool := none
  pathInfo : Option PathInfo := none
deriving Repr, DecidableEq

/-- A row of the `artifacts` table.  `meta` models the decoded `meta_json`. -/
structure ArtifactRow where
  id : String
  kind : String
  uri : String
  sha256 : String
  size : Nat
  meta : Meta
  created_at : String
deriving Repr, DecidableEq

/-- A row of the `events` table.  `evidence_ids` models the decoded JSON list
stored in the `evidence_ids` text column. -/
structure EventRow where
  id : String
  kind : String
  task_id : Option String
  session_id : String
  summary : String
  evidence_ids : List String
  ts : String
deriving Repr, DecidableEq

/-- A row of the `tasks` table. -/
structure TaskRow where
  id : String
  session_id : String
  parent_id : Option String
  title : String
  status : String
  accept_criteria : Option String
  created_at : String
  updated_at : String
deriving Repr, DecidableEq

/-- A row of the `facts` table. -/
structure FactRow where
  id : String
  key : String
  value : String
  scope : String
deriving Repr, DecidableEq

/-- The relational store: the four tables the commit/fetch paths touch. -/
structure DB where
  tasks : List TaskRow := []
  events : List EventRow := []
  artifacts : List ArtifactRow := []
  facts : List FactRow := []
deriving Repr, DecidableEq

/-- The store operation `upsertTask` from `src/db.ts`: primary-key upsert updating every column
except `created_at`. -/
def upsertTask (db : DB) (t : TaskRow) : DB :=
  if db.tasks.any (fun r => r.id = t.id) then
    { db with tasks := db.tasks.map (fun r =>
        if r.id = t.id then
          { t with created_at := r.created_at }
        else r) }
  else { db with tasks := db.tasks ++ [t] }

/-- The store operation `insertEvent` from `src/db.ts`: plain append.  (The `id` primary key is
assumed fresh; the handler layer assigns random ids by default.) -/
def insertEvent (db : DB) (e : EventRow) : DB :=
  { db with events := db.events ++ [e] }

/-- The store operation `upsertArtifact` from `src/db.ts`: primary-key upsert overwriting every
other column, `created_at` included. -/
def upsertArtifact (db : DB) (a : ArtifactRow) : DB :=
  if db.artifacts.any (fun r => r.id = a.id) then
    { db with artifacts := db.artifacts.map (fun r => if r.id = a.id then a else r) }
  else { db with artifacts := db.artifacts ++ [a] }

/-- The store operation `upsertFact` from `src/db.ts`: on id conflict only `value` and `scope`
are overwritten. -/
def upsertFact (db : DB) (f : FactRow) : DB :=
  if db.facts.any (fun r => r.id = f.id) then
    { db with facts := db.facts.map (fun r =>
        if r.id = f.id then { r with value := f.value, scope := f.scope } else r) }
  else { db with facts := db.facts ++ [f] }

/-- Modelled from the spec: `list_artifact_hashes()` — "Distinct `sha256`
values across all artifacts (for pruning)" (§4.D).  The method is called by
`pruneArtifactDirectory` in `src/stateframe.ts` but is missing from the
captured version of the store (`src/db.ts`); the spec notes it is "absent
from one version of the store surface" and directs implementers to add it.
Distinctness only affects duplicates, not membership, so the plain
projection is used. -/
def listArtifactHashes (db : DB) : List String :=
  db.artifacts.map (fun a => a.sha256)

/-! ## Commit pipeline and artifact store (`src/stateframe.ts`) -/

/-- The content-addressed artifact pool directory: an association list from
file name to file contents (a file's bytes, modelled as the string whose
UTF-8 encoding they are). -/
abbrev Pool := List (String × String)

/-- The `existsSync` / `writeFile` pair of the bodied branches: the body file
is written only when no file of that name exists yet. -/
def writeFileIfAbsent (pool : Pool) (name contents : String) : Pool :=
  if pool.any (fun e => e.1 = name) then pool
  else pool ++ [(name, contents)]

/-- One artifact descriptor of a state frame (`args.artifacts[i]`). -/
structure ArtifactInput where
  id : Option String := none
  kind : String
  uri : Option String := none
  text : Option String := none
  path : Option String := none
  startLine : Option Nat := none
  endLine : Option Nat := none
  meta : Option Meta := none
deriving Repr, DecidableEq

/-- One decision descriptor of a state frame (`args.decisions[i]`). -/
structure DecisionInput where
  id : Option String := none
  type : String
  summary : String
  evidence : Option (List String) := none
  task_id : Option String := none
deriving Repr, DecidableEq

/-- One fact descriptor of a state frame (`args.facts[i]`). -/
structure FactInput where
  key : String
  value : String
  scope : Option String := none
deriving Repr, DecidableEq

/-- The `StateFrameInput` consumed by `handleMemoryCommit`.  Absent optional
arrays are modelled as `[]` (the source reads `args.artifacts ?? []` etc.). -/
structure StateFrameInput where
  session_id : String
  task : Option String := none
  decisions : List DecisionInput := []
  artifacts : List ArtifactInput := []
  facts : List FactInput := []
deriving Repr, DecidableEq

/-- The `PreparedArtifact` record returned by `prepareArtifact`. -/
structure PreparedArtifact where
  id : String
  record : ArtifactRow
deriving Repr, DecidableEq

/-- JavaScript truthiness of the `text` field: `!text` holds when the field
is absent or the empty string. -/
def jsFalsyText : Option String → Bool
  | none => true
  | some t => t = ""

/-- Model of `s.startsWith(pre)`. -/
def jsStartsWith (s pre : String) : Bool :=
  pre.toList.isPrefixOf s.toList

/-- Model of `content.split("\n")` on character lists: split at every separator,
keeping empty segments (so the result is never empty). -/
def splitOnChar (sep : Char) : List Char → List (List Char)
  | [] => [[]]
  | c :: rest =>
    let r := splitOnChar sep rest
    if c = sep then [] :: r
    else match r with
      | [] => [[c]]
      | h :: t => (c :: h) :: t

/-- Model of `content.split("\n")` on strings. -/
def jsSplitLines (s : String) : List String :=
  (splitOnChar '\n' s.toList).map String.mk

/-- Model of `array.join(sep)`. -/
def joinWith (sep : String) : List String → String
  | [] => ""
  | [x] => x
  | x :: rest => x ++ sep ++ joinWith sep rest

/-- The first step of `prepareArtifact` (`if (!text && artifact.path)`):
when the text is JS-falsy and a path is supplied, the span
`[startLine..endLine]` of the workspace file is read as the text and the
meta is enriched; `none` models the `readFile` failure aborting the commit.
Otherwise the descriptor's own text and meta pass through. -/
def resolveArtifactText (ws : String → Option String) (a : ArtifactInput)
    (ts : String) (meta0 : Meta) : Option (Option String × Meta) :=
  match a.path, jsFalsyText a.text with
  | some p, true =>
    match ws p with
    | none => none
    | some content =>
      let fileTxt := jsSplitLines content
      let startL := a.startLine.getD 1
      let endL := a.endLine.getD fileTxt.length
      let text := joinWith "\n"
        ((fileTxt.drop (startL - 1)).take (endL - (startL - 1)))
      let meta1 := { meta0 with pathInfo := some ⟨p, startL, endL⟩ }
      let meta2 := if meta1.origin.isNone then
          { meta1 with origin := some ⟨"workspace", ts⟩ }
        else meta1
      some (some text, meta2)
  | _, _ => some (a.text, meta0)

/-- The final fallback block of `prepareArtifact` (reached when the text is
absent and the URI is JS-falsy): an empty-body bodied artifact "to maintain
compatibility" — the empty body is written into the pool under its hash and
the origin defaults to `"empty"`. -/
def prepareEmptyFallback (hash : String → String) (a : ArtifactInput)
    (ts : String) (meta : Meta) (pool : Pool) : PreparedArtifact × Pool :=
  let hashv := hash ""
  let pool1 := writeFileIfAbsent pool hashv ""
  let id := a.id.getD ("P-" ++ hashv.take 8)
  let meta1 := if meta.origin.isNone then
      { meta with origin := some ⟨"empty", ts⟩ }
    else meta
  (⟨id, ⟨id, a.kind, "artifact://sha256/" ++ hashv, hashv, 0, meta1, ts⟩⟩,
    pool1)

/-- The function `prepareArtifact` from `src/stateframe.ts`.  `hash` is SHA-256 over the
UTF-8 bytes; `ws` models reading a workspace file through `safeJoin` (with
`none` for a failing read, which aborts the commit); `pool` is the artifact
directory.  Branches, in source order: span read from `path` when the text
is JS-falsy (`resolveArtifactText`), bodied text, URI pointer — guarded by
`if (artifact.uri)`, so an absent or empty (JS-falsy) URI falls through —
and the empty-body fallback. -/
def prepareArtifact (hash : String → String) (ws : String → Option String)
    (a : ArtifactInput) (ts : String) (pool : Pool) :
    Option (PreparedArtifact × Pool) :=
  let meta0 := a.meta.getD {}
  match resolveArtifactText ws a ts meta0 with
  | none => none
  | some (text, meta) =>
    match text with
    | some t =>
      let hashv := hash t
      let pool1 := writeFileIfAbsent pool hashv t
      let id := a.id.getD ("P-" ++ hashv.take 8)
      let meta1 := if meta.origin.isNone then
          { meta with origin := some ⟨"text", ts⟩ }
        else meta
      some (⟨id, ⟨id, a.kind, "artifact://sha256/" ++ hashv, hashv,
        t.utf8ByteSize, meta1, ts⟩⟩, pool1)
    | none =>
      match a.uri with
      | some u =>
        if u = "" then some (prepareEmptyFallback hash a ts meta pool)
        else
          let pointerHash := hash u
          let id := a.id.getD ("P-" ++ pointerHash.take 8)
          let meta1 := if meta.pointer.isNone then { meta with pointer := some true }
            else meta
          let originType := if jsStartsWith u "workspace://" then "workspace-uri" else "uri"
          let meta2 := if meta1.origin.isNone then
              { meta1 with origin := some ⟨originType, ts⟩ }
            else meta1
          some (⟨id, ⟨id, a.kind, u, pointerHash, 0, meta2, ts⟩⟩, pool)
      | none => some (prepareEmptyFallback hash a ts meta pool)

/-- The artifact loop of `handleMemoryCommit`: prepare each descriptor,
upsert its record, and collect generated ids in input order. -/
def processArtifacts (hash : String → String) (ws : String → Option String)
    (ts : String) (db : DB) (pool : Pool) :
    List ArtifactInput → Option (DB × Pool × List String)
  | [] => some (db, pool, [])
  | a :: rest =>
    match prepareArtifact hash ws a ts pool with
    | none => none
    | some (pa, pool1) =>
      match processArtifacts hash ws ts (upsertArtifact db pa.record) pool1 rest with
      | none => none
      | some (db2, pool2, ids) => some (db2, pool2, pa.id :: ids)

/-- The event row inserted for the `i`-th decision of a commit.  `rnd i` is
the random 6-character suffix `rid("D")` would draw for that insertion. -/
def mkEventRow (rnd : Nat → String) (sessionId : String)
    (currentTaskId : Option String) (ts : String) (artifactIds : List String)
    (i : Nat) (d : DecisionInput) : EventRow :=
  { id := d.id.getD ("D-" ++ rnd i)
    kind := d.type
    task_id := (match d.task_id with
      | some t => some t
      | none => currentTaskId)
    session_id := sessionId
    summary := d.summary
    evidence_ids := d.evidence.getD artifactIds
    ts := ts }

/-- The decision loop of `handleMemoryCommit`, inserting events in input
order (`i` is the index of the next decision). -/
def processDecisions (rnd : Nat → String) (sessionId : String)
    (cur : Option String) (ts : String) (aids : List String) (db : DB)
    (i : Nat) : List DecisionInput → DB
  | [] => db
  | d :: rest =>
    processDecisions rnd sessionId cur ts aids
      (insertEvent db (mkEventRow rnd sessionId cur ts aids i d)) (i + 1) rest

/-- The event rows the decision loop appends, starting at index `i`. -/
def eventsFrom (rnd : Nat → String) (sessionId : String) (cur : Option String)
    (ts : String) (aids : List String) (i : Nat) :
    List DecisionInput → List EventRow
  | [] => []
  | d :: rest =>
    mkEventRow rnd sessionId cur ts aids i d ::
      eventsFrom rnd sessionId cur ts aids (i + 1) rest

/-- The fact loop of `handleMemoryCommit`: scope defaults to `"repo"`, the id
is the deterministic `factIdFor`, and the row is upserted. -/
def processFacts (hash : String → String) (db : DB) : List FactInput → DB
  | [] => db
  | f :: rest =>
    let scope := f.scope.getD "repo"
    processFacts hash
      (upsertFact db ⟨factIdFor hash f.key scope, f.key, f.value, scope⟩) rest

/-- The task step of `handleMemoryCommit`: a JS-truthy `task` title is
upserted with status `"doing"` and remembered as the current task id. -/
def commitTaskStep (db : DB) (args : StateFrameInput) (ts : String) :
    DB × Option String :=
  match args.task with
  | some t =>
    if t = "" then (db, none)
    else
      (upsertTask db ⟨buildTaskId t, args.session_id, none, t, "doing", none, ts, ts⟩,
        some (buildTaskId t))
  | none => (db, none)

/-- The function `pruneArtifactDirectory` from `src/stateframe.ts`: unlink every pool file
whose name is not in `listArtifactHashes` (deletion failures are swallowed;
a successful best-effort pass is modelled). -/
def prunePool (db : DB) (pool : Pool) : Pool :=
  pool.filter (fun e => decide (e.1 ∈ listArtifactHashes db))

/-- The function `handleMemoryCommit` from `src/stateframe.ts`: task upsert, artifact
preparation and upserts, event inserts, fact upserts, orphan prune; returns
the updated store and pool together with the ordered artifact ids. -/
def handleMemoryCommit (hash : String → String) (ws : String → Option String)
    (rnd : Nat → String) (db : DB) (pool : Pool) (args : StateFrameInput)
    (ts : String) : Option (DB × Pool × List String) :=
  let step1 := commitTaskStep db args ts
  match processArtifacts hash ws ts step1.1 pool args.artifacts with
  | none => none
  | some (db2, pool2, artifactIds) =>
    let db3 := processDecisions rnd args.session_id step1.2 ts artifactIds db2 0
      args.decisions
    let db4 := processFacts hash db3 args.facts
    some (db4, prunePool db4 pool2, artifactIds)

/-! ## Bundle composer (`src/bundle.ts`)

The three store queries (`listRecentEvents session 100`, `listActiveTasks
session 20`, `listFacts`) are modelled by the lists they return, so the
composer is quantified over arbitrary database contents.  JavaScript float
scores are modelled in `ℚ` (every constant involved is dyadic), `Date.now()`
and `Date.parse` as an integer clock `nowTime` and a parse function, and the
token estimator as a function parameter (see `estimateTokens`). -/

/-- An exact rational, kept unnormalized so that every operation is
kernel-computable (no gcd).  This models the JavaScript float scores of the
composer: every constant involved (`5.0`, `4.0`, `3.5`, `2.0`, `1.5`, `0.5`
and the recency boosts) is an exact dyadic value, so exact fractions agree
with the float arithmetic of the source on these small magnitudes.  The
denominator is always built positive. -/
structure Frac where
  num : Int
  den : Nat
deriving Repr, DecidableEq

/-- Exact comparison of two fractions by cross-multiplication. -/
def Frac.ltb (a b : Frac) : Bool :=
  a.num * (b.den : Int) < b.num * (a.den : Int)

/-- Embed an integer. -/
def Frac.ofInt (n : Int) : Frac := ⟨n, 1⟩

/-- Addition of fractions. -/
def Frac.add (a b : Frac) : Frac :=
  ⟨a.num * (b.den : Int) + b.num * (a.den : Int), a.den * b.den⟩

/-- Subtraction of fractions. -/
def Frac.sub (a b : Frac) : Frac :=
  ⟨a.num * (b.den : Int) - b.num * (a.den : Int), a.den * b.den⟩

/-- Division of a fraction by a positive natural number. -/
def Frac.divNat (a : Frac) (n : Nat) : Frac := ⟨a.num, a.den * n⟩

/-- Model of `Math.max(0, x)`. -/
def Frac.max0 (a : Frac) : Frac := if a.num < 0 then ⟨0, 1⟩ else a

/-- A candidate item of the knapsack. `metaTs` is the value
`a.meta?.ts ? Date.parse(a.meta.ts) : 0` used by the mandatory sort. -/
structure Item where
  id : String
  type : String
  text : String
  tokenCost : Nat
  score : Frac
  metaTs : Int
deriving Repr, DecidableEq

/-- The utility density `score / (tokenCost + 1)` of the greedy knapsack. -/
def density (it : Item) : Frac :=
  it.score.divNat (it.tokenCost + 1)

/-- The candidate item built for an active task: score
`5.0 + max(0, 3 - ageHours * 0.5)` with `ageHours = max(0, (now - updated) /
3_600_000)`. -/
def taskItem (est : String → Nat) (parseTs : String → Int) (nowTime : Int)
    (t : TaskRow) : Item :=
  let text := "TASK " ++ t.id ++ ": " ++ t.title ++ " [" ++ t.status ++ "]" ++
    (match t.accept_criteria with
      | some c => if c = "" then "" else "\nACCEPT: " ++ c
      | none => "")
  let updated : Int := if t.updated_at = "" then nowTime else parseTs t.updated_at
  let ageHours := Frac.max0 ((Frac.ofInt (nowTime - updated)).divNat 3600000)
  let recencyBoost := Frac.max0 ((Frac.ofInt 3).sub (ageHours.divNat 2))
  ⟨t.id, "TASK", text, est text, (Frac.ofInt 5).add recencyBoost, 0⟩

/-- The candidate item built for a recent event: base score 4.0 for
TEST_FAIL/BLOCKER, 3.5 for DECISION, 2.0 otherwise, plus recency boost
`max(0, 4 - ageHours)`. -/
def eventItem (est : String → Nat) (parseTs : String → Int) (nowTime : Int)
    (e : EventRow) : Item :=
  let text := e.kind ++ " " ++ e.id ++ ": " ++ e.summary
  let base : Frac := if e.kind = "TEST_FAIL" ∨ e.kind = "BLOCKER" then ⟨4, 1⟩
    else if e.kind = "DECISION" then ⟨7, 2⟩ else ⟨2, 1⟩
  let ts : Int := if e.ts = "" then nowTime else parseTs e.ts
  let ageHours := Frac.max0 ((Frac.ofInt (nowTime - ts)).divNat 3600000)
  let recencyBoost := Frac.max0 ((Frac.ofInt 4).sub ageHours)
  ⟨e.id, "EVENT", text, est text, base.add recencyBoost,
    if e.ts = "" then 0 else parseTs e.ts⟩

/-- The candidate item built for a fact: constant score 1.5. -/
def factItem (est : String → Nat) (f : FactRow) : Item :=
  let text := "FACT " ++ f.key ++ "=" ++ f.value ++ " (" ++ f.scope ++ ")"
  ⟨f.id, "FACT", text, est text, ⟨3, 2⟩, 0⟩

/-- The candidate list, in insertion order: tasks, then events, then facts. -/
def bundleItems (est : String → Nat) (parseTs : String → Int) (nowTime : Int)
    (activeTasks : List TaskRow) (recentEvents : List EventRow)
    (facts : List FactRow) : List Item :=
  activeTasks.map (taskItem est parseTs nowTime) ++
    recentEvents.map (eventItem est parseTs nowTime) ++
    facts.map (factItem est)

/-- Stable insertion used to model JavaScript's stable `Array.prototype.sort`:
`gt b a` holds when the already-placed element `b` must stay strictly before
the inserted element `a`; on ties the inserted element goes first, preserving
the original relative order under `foldr`. -/
def insertByGt (gt : α → α → Bool) (a : α) : List α → List α
  | [] => [a]
  | b :: rest => if gt b a then b :: insertByGt gt a rest else a :: b :: rest

/-- Stable sort by the strict precedence `gt` (descending comparator sorts). -/
def sortByGt (gt : α → α → Bool) (l : List α) : List α :=
  l.foldr (insertByGt gt) []

/-- The helper `addItem` from `composeBundle`: skip ids already picked, skip positive
costs that would exceed the budget (zero-cost items always fit), otherwise
push and account. -/
def addItem (budget : Nat) (st : List Item × Nat) (it : Item) : List Item × Nat :=
  if st.1.any (fun p => p.id = it.id) then st
  else if 0 < it.tokenCost ∧ budget < st.2 + it.tokenCost then st
  else (st.1 ++ [it], st.2 + it.tokenCost)

/-- The selection loop of `composeBundle`: the mandatory items (up to three
most recent DECISIONs plus up to three most recent TEST_FAIL/BLOCKERs,
ordered by descending event time), then every candidate in descending
utility-density order, folded through `addItem`.  Returns `(picked, used)`. -/
def composeState (est : String → Nat) (parseTs : String → Int) (nowTime : Int)
    (recentEvents : List EventRow) (activeTasks : List TaskRow)
    (facts : List FactRow) (tokenBudget : Nat) : List Item × Nat :=
  let items := bundleItems est parseTs nowTime activeTasks recentEvents facts
  let sorted := sortByGt (fun b a => Frac.ltb (density a) (density b)) items
  let decisionIds := ((recentEvents.filter
    (fun e => decide (e.kind = "DECISION"))).take 3).map (fun e => e.id)
  let failureIds := ((recentEvents.filter
    (fun e => decide (e.kind = "TEST_FAIL" ∨ e.kind = "BLOCKER"))).take 3).map
    (fun e => e.id)
  let mandatoryItems := sortByGt (fun b a => decide (a.metaTs < b.metaTs))
    (items.filter (fun it => decide (it.id ∈ decisionIds) ||
      decide (it.id ∈ failureIds)))
  (mandatoryItems ++ sorted).foldl (addItem tokenBudget) ([], 0)

/-- The `now` card of the bundle. -/
structure NowCard where
  objective : String
  active_task_ids : List String
  last_decisions : List String
  last_failures : List String
deriving Repr, DecidableEq

/-- The `structured` part of the composer's return value; a pointer is the
`(id, type)` pair of a picked item. -/
structure BundleStructured where
  now : NowCard
  pointers : List (String × String)
  token_estimate : Nat
  budget : Nat
deriving Repr, DecidableEq

/-- The full return value of `composeBundle`: the rendered Now-card text and
the structured bundle.  (No `metrics` field: the captured `src/bundle.ts`
returns only these two.) -/
structure BundleOutput where
  text : String
  structured : BundleStructured
deriving Repr, DecidableEq

/-- Model of the rendering fallback `list.join(", ") || "—"`. -/
def joinOrDash (l : List String) : String :=
  let j := String.intercalate ", " l
  if j = "" then "—" else j

/-- The rendered summary text of the bundle. -/
def bundleText (now : NowCard) (picked : List Item) : String :=
  "NOW:\n- Objective: " ++ now.objective ++
    "\n- Active: " ++ joinOrDash now.active_task_ids ++
    "\n- Decisions: " ++ joinOrDash now.last_decisions ++
    "\n- Failing tests: " ++ joinOrDash now.last_failures ++
    "\n\nPOINTERS:\n" ++
    String.intercalate "\n" (picked.map (fun p => "• " ++ p.type ++ " " ++ p.id))

/-- The function `composeBundle` from `src/bundle.ts`. -/
def composeBundle (est : String → Nat) (parseTs : String → Int) (nowTime : Int)
    (recentEvents : List EventRow) (activeTasks : List TaskRow)
    (facts : List FactRow) (tokenBudget : Nat) : BundleOutput :=
  let st := composeState est parseTs nowTime recentEvents activeTasks facts
    tokenBudget
  let picked := st.1
  let nowCard : NowCard :=
    { objective := (match activeTasks with
        | [] => "No active task"
        | t :: _ => t.title)
      active_task_ids := activeTasks.map (fun t => t.id)
      last_decisions := ((recentEvents.filter
        (fun e => decide (e.kind = "DECISION"))).take 5).map (fun e => e.id)
      last_failures := ((recentEvents.filter
        (fun e => decide (e.kind = "TEST_FAIL"))).take 5).map (fun e => e.id) }
  { text := bundleText nowCard picked
    structured :=
      { now := nowCard
        pointers := picked.map (fun p => (p.id, p.type))
        token_estimate := st.2
        budget := tokenBudget } }

/-! ## Session resolver (`session.ts`) -/

/-- The suffix resolution steps 3–4 of `normalizeSessionId`: an empty or
`"unknown"` provided suffix is replaced by the sanitized git branch when one
exists (`if (branch)` skips the JS-falsy empty branch), and a still-empty
suffix falls back to today's date. -/
def resolveSuffix (branch : Option String) (today providedSuffix : String) :
    String :=
  let suffix1 := if providedSuffix = "" ∨ providedSuffix = "unknown" then
      match branch with
      | some b => if b = "" then providedSuffix else sanitizeIdPart b
      | none => providedSuffix
    else providedSuffix
  if suffix1 = "" then today else suffix1

/-- The function `normalizeSessionId` from `session.ts`.  The impure inputs are passed
explicitly: `branch` is the (per-root cached, hence call-stable) result of
`detectGitBranch root` (`none` for a failed lookup), `today` is
`defaultSuffix()` (today's date as `YYYYMMDD`), and `rootName` is
`basename(resolve(root))`. -/
def normalizeSessionId (branch : Option String) (today : String)
    (rootName : String) (raw : String) : String :=
  let trimmed := jsTrim raw
  let parts := splitAtFirst2 '@' trimmed
  let rawBase := parts.1
  let rawSuffix := parts.2
  let rootBase := sanitizeIdPart (if rootName = "" then "workspace" else rootName)
  let baseCandidate := sanitizeIdPart (if rawBase = "" then rootBase else rawBase)
  let providedSuffix := match rawSuffix with
    | some s => if s = "" then "" else sanitizeIdPart s
    | none => ""
  baseCandidate ++ "@" ++ resolveSuffix branch today providedSuffix

/-! ## `memory_fetch` handler (`src/index.ts`) -/

/-- A record returned by `memory_fetch`, tagged by the table it came from. -/
inductive FetchRec where
  | artifact (a : ArtifactRow)
  | event (e : EventRow)
  | task (t : TaskRow)
  | fact (f : FactRow)
deriving Repr, DecidableEq

/-- The `memory_fetch` handler of `src/index.ts`: try the artifact table,
then (only on a miss) events, then tasks, then facts; `none` models the
`not found` error response. -/
def memoryFetch (db : DB) (id : String) : Option FetchRec :=
  let art := db.artifacts.find? (fun r => r.id = id)
  let evt := if art.isSome then none else db.events.find? (fun r => r.id = id)
  let tsk := if art.isSome || evt.isSome then none
    else db.tasks.find? (fun r => r.id = id)
  let fct := if art.isSome || evt.isSome || tsk.isSome then none
    else db.facts.find? (fun r => r.id = id)
  match art, evt, tsk, fct with
  | some a, _, _, _ => some (FetchRec.artifact a)
  | none, some e, _, _ => some (FetchRec.event e)
  | none, none, some t, _ => some (FetchRec.task t)
  | none, none, none, some f => some (FetchRec.fact f)
  | none, none, none, none => none

/-! ## C10: `memory_fetch` resolution precedence -/

/-- C10.  `memory_fetch` resolves an ID by the fixed precedence artifact →
event → task → fact: an ID found in the artifact table is returned as that
artifact regardless of the other tables; on an artifact miss the event table
decides, then tasks, then facts; and the not-found error occurs exactly when
the ID is present in none of the four tables. -/
theorem memory_fetch_precedence (db : DB) (id : String) :
    (memoryFetch db id = none ↔
      (db.artifacts.find? (fun r => r.id = id) = none ∧
        db.events.find? (fun r => r.id = id) = none ∧
        db.tasks.find? (fun r => r.id = id) = none ∧
        db.facts.find? (fun r => r.id = id) = none)) ∧
    (∀ a, db.artifacts.find? (fun r => r.id = id) = some a →
      memoryFetch db id = some (FetchRec.artifact a)) ∧
    (db.artifacts.find? (fun r => r.id = id) = none →
      ∀ e, db.events.find? (fun r => r.id = id) = some e →
        memoryFetch db id = some (FetchRec.event e)) ∧
    (db.artifacts.find? (fun r => r.id = id) = none →
      db.events.find? (fun r => r.id = id) = none →
      ∀ t, db.tasks.find? (fun r => r.id = id) = some t →
        memoryFetch db id = some (FetchRec.task t)) ∧
    (db.artifacts.find? (fun r => r.id = id) = none →
      db.events.find? (fun r => r.id = id) = none →
      db.tasks.find? (fun r => r.id = id) = none →
      ∀ f, db.facts.find? (fun r => r.id = id) = some f →
        memoryFetch db id = some (FetchRec.fact f)) := by
  unfold memoryFetch
  cases hA : db.artifacts.find? (fun r => r.id = id) <;>
    cases hE : db.events.find? (fun r => r.id = id) <;>
      cases hT : db.tasks.find? (fun r => r.id = id) <;>
        cases hF : db.facts.find? (fun r => r.id = id) <;>
          simp [hA, hE, hT, hF]

/-- Witness for C10: a store holding an artifact row, an event row, a task
row and a fact row that all share the id `"X"`; `memory_fetch` returns the
artifact. -/
theorem memory_fetch_precedence_witness :
    memoryFetch
      { tasks := [⟨"X", "s", none, "title", "doing", none, "c", "u"⟩]
        events := [⟨"X", "NOTE", none, "s", "sum", [], "t"⟩]
        artifacts := [⟨"X", "SNIPPET", "u", "h", 0, {}, "c"⟩]
        facts := [⟨"X", "k", "v", "repo"⟩] } "X" =
      some (FetchRec.artifact ⟨"X", "SNIPPET", "u", "h", 0, {}, "c"⟩) :=
  (memory_fetch_precedence
    { tasks := [⟨"X", "s", none, "title", "doing", none, "c", "u"⟩]
      events := [⟨"X", "NOTE", none, "s", "sum", [], "t"⟩]
      artifacts := [⟨"X", "SNIPPET", "u", "h", 0, {}, "c"⟩]
      facts := [⟨"X", "k", "v", "repo"⟩] } "X").2.1
    ⟨"X", "SNIPPET", "u", "h", 0, {}, "c"⟩ (by rfl)

/-! ## C8: the bundle respects the token budget -/

theorem mem_insertByGt (gt : α → α → Bool) (a x : α) (l : List α) :
    x ∈ insertByGt gt a l ↔ x = a ∨ x ∈ l := by
  induction l with
  | nil => simp [insertByGt]
  | cons b rest ih =>
    by_cases h : gt b a
    · simp only [insertByGt, h, if_true, List.mem_cons, ih]
      tauto
    · simp only [insertByGt, h, if_false, Bool.false_eq_true, List.mem_cons]

theorem mem_sortByGt (gt : α → α → Bool) (x : α) (l : List α) :
    x ∈ sortByGt gt l ↔ x ∈ l := by
  induction l with
  | nil => simp [sortByGt]
  | cons b rest ih =>
    simp only [sortByGt, List.foldr_cons] at *
    rw [mem_insertByGt, ih, List.mem_cons]

theorem addItem_eq (budget : Nat) (st : List Item × Nat) (it : Item) :
    (st.1.any (fun p => p.id = it.id) = true ∧ addItem budget st it = st) ∨
    (st.1.any (fun p => p.id = it.id) = false ∧
      (0 < it.tokenCost ∧ budget < st.2 + it.tokenCost) ∧
      addItem budget st it = st) ∨
    (st.1.any (fun p => p.id = it.id) = false ∧
      ¬(0 < it.tokenCost ∧ budget < st.2 + it.tokenCost) ∧
      addItem budget st it = (st.1 ++ [it], st.2 + it.tokenCost)) := by
  unfold addItem
  split_ifs with h1 h2
  · exact Or.inl ⟨h1, rfl⟩
  · exact Or.inr (Or.inl ⟨by simpa using h1, h2, rfl⟩)
  · exact Or.inr (Or.inr ⟨by simpa using h1, h2, rfl⟩)

theorem foldl_addItem_sum (budget : Nat) (l : List Item) :
    ∀ st : List Item × Nat, st.2 = (st.1.map Item.tokenCost).sum →
      (l.foldl (addItem budget) st).2 =
        ((l.foldl (addItem budget) st).1.map Item.tokenCost).sum := by
  induction l with
  | nil => intro st h; simpa using h
  | cons a l ih =>
    intro st h
    simp only [List.foldl_cons]
    apply ih
    rcases addItem_eq budget st a with ⟨_, he⟩ | ⟨_, _, he⟩ | ⟨_, _, he⟩ <;>
      rw [he] <;> simp [h]

theorem foldl_addItem_bud (budget : Nat) (l : List Item) :
    ∀ st : List Item × Nat, st.2 ≤ budget →
      (l.foldl (addItem budget) st).2 ≤ budget := by
  induction l with
  | nil => intro st h; simpa using h
  | cons a l ih =>
    intro st h
    simp only [List.foldl_cons]
    apply ih
    rcases addItem_eq budget st a with ⟨_, he⟩ | ⟨_, _, he⟩ | ⟨_, hc, he⟩ <;> rw [he]
    · exact h
    · exact h
    · rcases Nat.eq_zero_or_pos a.tokenCost with h0 | h0
      · simpa [h0] using h
      · simp only [not_and, not_lt] at hc
        exact hc h0

theorem foldl_addItem_mono_id (budget : Nat) (l : List Item) :
    ∀ (st : List Item × Nat) (s : String), s ∈ st.1.map Item.id →
      s ∈ (l.foldl (addItem budget) st).1.map Item.id := by
  induction l with
  | nil => intro st s h; simpa using h
  | cons a l ih =>
    intro st s h
    simp only [List.foldl_cons]
    apply ih
    rcases addItem_eq budget st a with ⟨_, he⟩ | ⟨_, _, he⟩ | ⟨_, _, he⟩ <;> rw [he]
    · exact h
    · exact h
    · simp only [List.map_append]
      exact List.mem_append_left _ h

theorem foldl_addItem_zero (budget : Nat) (l : List Item) (it : Item)
    (hc : it.tokenCost = 0) :
    ∀ st : List Item × Nat, it ∈ l →
      it.id ∈ (l.foldl (addItem budget) st).1.map Item.id := by
  induction l with
  | nil => intro st h; simp at h
  | cons a l ih =>
    intro st hmem
    simp only [List.foldl_cons]
    rcases List.mem_cons.mp hmem with rfl | hmem
    · rcases addItem_eq budget st it with ⟨hdup, he⟩ | ⟨_, hcost, he⟩ | ⟨_, _, he⟩
      · rw [he]
        apply foldl_addItem_mono_id
        rcases List.any_eq_true.mp hdup with ⟨p, hp, hpid⟩
        simp only [decide_eq_true_eq] at hpid
        exact hpid ▸ List.mem_map_of_mem Item.id hp
      · exact absurd hcost.1 (by omega)
      · rw [he]
        apply foldl_addItem_mono_id
        simp
    · exact ih _ hmem

/-- C8.  For every token estimator, clock, database contents and budget, the
bundle composed by `composeBundle` satisfies: the sum of the picked items'
token costs equals the reported `token_estimate`, that estimate never
exceeds the budget, and every candidate item of zero token cost is always
admitted (its id appears among the returned pointers) regardless of the
remaining budget. -/
theorem bundle_budget_invariant (est : String → Nat) (parseTs : String → Int)
    (nowTime : Int) (recentEvents : List EventRow) (activeTasks : List TaskRow)
    (facts : List FactRow) (tokenBudget : Nat) :
    ((composeState est parseTs nowTime recentEvents activeTasks facts
        tokenBudget).1.map Item.tokenCost).sum =
      (composeBundle est parseTs nowTime recentEvents activeTasks facts
        tokenBudget).structured.token_estimate ∧
    (composeBundle est parseTs nowTime recentEvents activeTasks facts
      tokenBudget).structured.token_estimate ≤ tokenBudget ∧
    ∀ it ∈ bundleItems est parseTs nowTime activeTasks recentEvents facts,
      it.tokenCost = 0 →
      it.id ∈ (composeBundle est parseTs nowTime recentEvents activeTasks facts
        tokenBudget).structured.pointers.map Prod.fst := by
  have hest : (composeBundle est parseTs nowTime recentEvents activeTasks facts
      tokenBudget).structured.token_estimate =
      (composeState est parseTs nowTime recentEvents activeTasks facts
        tokenBudget).2 := rfl
  have hptr : (composeBundle est parseTs nowTime recentEvents activeTasks facts
      tokenBudget).structured.pointers.map Prod.fst =
      (composeState est parseTs nowTime recentEvents activeTasks facts
        tokenBudget).1.map Item.id := by
    show ((composeState est parseTs nowTime recentEvents activeTasks facts
      tokenBudget).1.map (fun p => (p.id, p.type))).map Prod.fst = _
    rw [List.map_map]
    rfl
  refine ⟨?_, ?_, ?_⟩
  · rw [hest]
    exact (foldl_addItem_sum tokenBudget _ ([], 0) (by simp)).symm
  · rw [hest]
    exact foldl_addItem_bud tokenBudget _ ([], 0) (by simp)
  · intro it hit hc
    rw [hptr]
    apply foldl_addItem_zero tokenBudget _ it hc
    apply List.mem_append_right
    exact (mem_sortByGt _ it _).mpr hit

/-- Witness for C8: with the constant-zero estimator, one NOTE event and
budget 0, the event's id is returned among the pointers (a zero-cost item is
admitted even with no budget), and the estimate 0 is within budget. -/
theorem bundle_budget_invariant_witness :
    (composeBundle (fun _ => 0) (fun _ => 0) 0
      [⟨"E", "NOTE", none, "s", "m", [], "t"⟩] [] [] 0).structured.token_estimate ≤ 0 ∧
    "E" ∈ (composeBundle (fun _ => 0) (fun _ => 0) 0
      [⟨"E", "NOTE", none, "s", "m", [], "t"⟩] [] [] 0).structured.pointers.map
        Prod.fst :=
  ⟨(bundle_budget_invariant (fun _ => 0) (fun _ => 0) 0
      [⟨"E", "NOTE", none, "s", "m", [], "t"⟩] [] [] 0).2.1,
    (bundle_budget_invariant (fun _ => 0) (fun _ => 0) 0
      [⟨"E", "NOTE", none, "s", "m", [], "t"⟩] [] [] 0).2.2
      (eventItem (fun _ => 0) (fun _ => 0) 0 ⟨"E", "NOTE", none, "s", "m", [], "t"⟩)
      (by simp [bundleItems]) (by rfl)⟩

/-! ## C3: the compose scenario (and the missing `metrics` list)

The claim also asserts that `compose` returns a `metrics` list with one entry
per picked item.  The captured `src/bundle.ts` returns only `{text,
structured}` — `BundleOutput` above has no metrics at all — although the
repository's own test suite asserts `bundle.metrics.length ≥
pointers.length`.  The theorem below evaluates the captured code on the
claimed scenario: the mandatory-inclusion part holds (both `D-1` and `F-1`
are returned), while the metrics part has no code to hold of. -/

/-- C3 (behaviour of the captured code at the claimed scenario).  With events
`D-1` (DECISION), `F-1` (TEST_FAIL) and `N-1` (NOTE) and budget 100, the
bundle's pointers contain both `D-1` and `F-1`; the full return value is the
text/structured pair only. -/
theorem compose_scenario_events :
    (composeBundle (estimateTokens none none "openai") (fun _ => 0) 0
      [⟨"D-1", "DECISION", none, "s", "picked approach", [], "t0"⟩,
        ⟨"F-1", "TEST_FAIL", none, "s", "unit failed", [], "t0"⟩,
        ⟨"N-1", "NOTE", none, "s", "misc", [], "t0"⟩] [] [] 100).structured.pointers =
      [("D-1", "EVENT"), ("F-1", "EVENT"), ("N-1", "EVENT")] ∧
    "D-1" ∈ (composeBundle (estimateTokens none none "openai") (fun _ => 0) 0
      [⟨"D-1", "DECISION", none, "s", "picked approach", [], "t0"⟩,
        ⟨"F-1", "TEST_FAIL", none, "s", "unit failed", [], "t0"⟩,
        ⟨"N-1", "NOTE", none, "s", "misc", [], "t0"⟩] [] [] 100).structured.pointers.map
        Prod.fst ∧
    "F-1" ∈ (composeBundle (estimateTokens none none "openai") (fun _ => 0) 0
      [⟨"D-1", "DECISION", none, "s", "picked approach", [], "t0"⟩,
        ⟨"F-1", "TEST_FAIL", none, "s", "unit failed", [], "t0"⟩,
        ⟨"N-1", "NOTE", none, "s", "misc", [], "t0"⟩] [] [] 100).structured.pointers.map
        Prod.fst := by
  refine ⟨?_, ?_, ?_⟩ <;> decide

/-! ## C9: session normalization is idempotent -/

theorem jsWhitespace_not_idChar (c : Char) (h : jsWhitespace c = true) :
    isIdChar c = false := by
  unfold jsWhitespace at h
  simp only [Bool.or_eq_true, decide_eq_true_eq] at h
  obtain ((((rfl | rfl) | rfl) | rfl) | rfl) | rfl := h <;> decide

theorem idChar_not_ws (c : Char) (h : isIdChar c = true) :
    jsWhitespace c = false := by
  cases hw : jsWhitespace c
  · rfl
  · rw [jsWhitespace_not_idChar c hw] at h
    exact absurd h (by simp)

theorem idChar_ne_at (c : Char) (h : isIdChar c = true) : c ≠ '@' := by
  intro hEq
  rw [hEq] at h
  exact absurd h (by decide)

theorem dropWhile_eq_self_of (p : α → Bool) (l : List α)
    (h : ∀ c ∈ l, p c = false) : l.dropWhile p = l := by
  cases l with
  | nil => rfl
  | cons a l => simp [List.dropWhile, h a (by simp)]

theorem takeWhile_eq_self_of (p : α → Bool) (l : List α)
    (h : ∀ c ∈ l, p c = true) : l.takeWhile p = l := by
  induction l with
  | nil => rfl
  | cons a l ih =>
    simp only [List.takeWhile, h a (by simp)]
    rw [ih (fun c hc => h c (by simp [hc]))]

theorem jsTrim_eq_self (s : String) (h : ∀ c ∈ s.toList, jsWhitespace c = false) :
    jsTrim s = s := by
  unfold jsTrim jsTrimList
  rw [dropWhile_eq_self_of _ _ h]
  rw [dropWhile_eq_self_of _ _ (fun c hc => h c (List.mem_reverse.mp hc))]
  rw [List.reverse_reverse]
  rfl

theorem breakAtChar_split (B S : List Char) (hB : '@' ∉ B) :
    breakAtChar '@' (B ++ '@' :: S) = (B, some (S.takeWhile (fun d => d ≠ '@'))) := by
  induction B with
  | nil => simp [breakAtChar]
  | cons c B ih =>
    have hc : ¬(c = '@') := fun hh => hB (by simp [hh])
    show breakAtChar '@' (c :: (B ++ '@' :: S)) = _
    rw [breakAtChar, if_neg hc, ih (fun hh => hB (by simp [hh]))]

theorem splitAtFirst2_split (B S : String)
    (hB : ∀ c ∈ B.toList, isIdChar c = true)
    (hS : ∀ c ∈ S.toList, isIdChar c = true) :
    splitAtFirst2 '@' (B ++ "@" ++ S) = (B, some S) := by
  unfold splitAtFirst2
  have hlist : (B ++ "@" ++ S).toList = B.toList ++ '@' :: S.toList := by
    show (B.toList ++ ['@']) ++ S.toList = _
    simp
  rw [hlist, breakAtChar_split B.toList S.toList
    (fun hmem => idChar_ne_at '@' (hB '@' hmem) rfl)]
  rw [takeWhile_eq_self_of _ S.toList
    (fun c hc => by simpa using idChar_ne_at c (hS c hc))]
  rfl

theorem sanitizeIdPart_ne_empty (s : String) : sanitizeIdPart s ≠ "" := by
  unfold sanitizeIdPart
  split_ifs with h
  · intro hh
    exact absurd hh (by decide)
  · exact h

theorem sanitizeIdPart_chars (s : String) :
    ∀ c ∈ (sanitizeIdPart s).toList, isIdChar c = true := by
  unfold sanitizeIdPart
  split_ifs with h
  · intro c hc
    rcases (by simpa using hc :
      c = 'p' ∨ c = 'r' ∨ c = 'o' ∨ c = 'j') with rfl | rfl | rfl | rfl <;> decide
  · intro c hc
    rcases mem_collapseRuns isIdChar s.toList c hc with hg | rfl
    · exact hg
    · decide

theorem sanitizeIdPart_fixed (s : String) (h0 : s ≠ "")
    (hc : ∀ c ∈ s.toList, isIdChar c = true) : sanitizeIdPart s = s := by
  unfold sanitizeIdPart
  rw [collapseRuns_all_good isIdChar s.toList hc]
  show (if s = "" then "proj" else s) = s
  exact if_neg h0

/-- Every suffix `resolveSuffix` can produce is nonempty, stays in the
sanitized character class, and can only be `"unknown"` when the branch
lookup cannot replace it. -/
theorem resolveSuffix_props (branch : Option String) (today P : String)
    (ht0 : today ≠ "") (htc : ∀ c ∈ today.toList, isIdChar c = true)
    (hPcases : P = "" ∨ ∃ s, P = sanitizeIdPart s) :
    resolveSuffix branch today P ≠ "" ∧
      (∀ c ∈ (resolveSuffix branch today P).toList, isIdChar c = true) ∧
      (resolveSuffix branch today P = "unknown" →
        branch = none ∨ branch = some "" ∨
          ∃ b, branch = some b ∧ sanitizeIdPart b = "unknown") := by
  have hunknown : ∀ c ∈ ("unknown" : String).toList, isIdChar c = true := by
    decide
  have hPchars : ∀ c ∈ P.toList, isIdChar c = true := by
    rcases hPcases with rfl | ⟨s, rfl⟩
    · intro c hc
      simp at hc
    · exact sanitizeIdPart_chars s
  unfold resolveSuffix
  by_cases hPu : P = "" ∨ P = "unknown"
  · rw [if_pos hPu]
    cases branch with
    | none =>
      dsimp only
      by_cases hP0 : P = ""
      · simp only [hP0, if_pos rfl]
        exact ⟨ht0, htc, fun _ => by simp⟩
      · rw [if_neg hP0]
        exact ⟨hP0, hPchars, fun _ => by simp⟩
    | some b =>
      dsimp only
      by_cases hb : b = ""
      · rw [if_pos hb]
        by_cases hP0 : P = ""
        · simp only [hP0, if_pos rfl]
          exact ⟨ht0, htc, fun _ => by simp [hb]⟩
        · rw [if_neg hP0]
          exact ⟨hP0, hPchars, fun _ => by simp [hb]⟩
      · rw [if_neg hb, if_neg (sanitizeIdPart_ne_empty b)]
        exact ⟨sanitizeIdPart_ne_empty b, sanitizeIdPart_chars b,
          fun hh => Or.inr (Or.inr ⟨b, rfl, hh⟩)⟩
  · rw [if_neg hPu]
    dsimp only
    have hP0 : ¬(P = "") := fun h => hPu (Or.inl h)
    rw [if_neg hP0]
    exact ⟨hP0, hPchars, fun hh => absurd (Or.inr hh) hPu⟩

/-- On a suffix that is already sanitized, nonempty and distinct from
`"unknown"`, `resolveSuffix` is the identity. -/
theorem resolveSuffix_fixed (branch : Option String) (today S : String)
    (hS0 : S ≠ "") (hu : S ≠ "unknown") :
    resolveSuffix branch today S = S := by
  unfold resolveSuffix
  have hcond : ¬(S = "" ∨ S = "unknown") := by
    rintro (h | h)
    · exact hS0 h
    · exact hu h
  rw [if_neg hcond]
  dsimp only
  rw [if_neg hS0]

/-- When the bookkeeping fact of `resolveSuffix_props` holds, the suffix
`"unknown"` is reproduced by a second resolution. -/
theorem resolveSuffix_unknown (branch : Option String) (today : String)
    (hb : branch = none ∨ branch = some "" ∨
      ∃ b, branch = some b ∧ sanitizeIdPart b = "unknown") :
    resolveSuffix branch today "unknown" = "unknown" := by
  unfold resolveSuffix
  rw [if_pos (Or.inr rfl)]
  rcases hb with rfl | rfl | ⟨b, rfl, hsan⟩
  · dsimp only
    rw [if_neg (by decide : ¬("unknown" : String) = "")]
  · dsimp only
    rw [if_pos rfl, if_neg (by decide : ¬("unknown" : String) = "")]
  · dsimp only
    by_cases hb0 : b = ""
    · rw [if_pos hb0, if_neg (by decide : ¬("unknown" : String) = "")]
    · rw [if_neg hb0, hsan, if_neg (by decide : ¬("unknown" : String) = "")]

/-- The value `normalizeSessionId` computes on an already-normalized input
`B ++ "@" ++ S` (both segments nonempty and in the sanitized character
class): the base is kept and the suffix is re-resolved. -/
theorem normalizeSessionId_wellformed (branch : Option String)
    (today rootName B S : String) (hB0 : B ≠ "")
    (hBc : ∀ c ∈ B.toList, isIdChar c = true) (hS0 : S ≠ "")
    (hSc : ∀ c ∈ S.toList, isIdChar c = true) :
    normalizeSessionId branch today rootName (B ++ "@" ++ S) =
      B ++ "@" ++ resolveSuffix branch today S := by
  have htrim : jsTrim (B ++ "@" ++ S) = B ++ "@" ++ S := by
    apply jsTrim_eq_self
    intro c hc
    have hlist : (B ++ "@" ++ S).toList = B.toList ++ '@' :: S.toList := by
      show (B.toList ++ ['@']) ++ S.toList = _
      simp
    rw [hlist] at hc
    rcases List.mem_append.mp hc with hc | hc
    · exact idChar_not_ws c (hBc c hc)
    · rcases List.mem_cons.mp hc with rfl | hc
      · decide
      · exact idChar_not_ws c (hSc c hc)
  simp only [normalizeSessionId]
  rw [htrim, splitAtFirst2_split B S hBc hSc]
  dsimp only
  rw [if_neg hB0, sanitizeIdPart_fixed B hB0 hBc]
  rw [if_neg hS0, sanitizeIdPart_fixed S hS0 hSc]

/-- The shape of every `normalizeSessionId` result: `base@suffix` with both
segments nonempty and sanitized, and with the extra bookkeeping fact that a
suffix `"unknown"` can only survive when the branch lookup cannot replace
it. -/
theorem normalizeSessionId_shape (branch : Option String)
    (today rootName raw : String) (ht0 : today ≠ "")
    (htc : ∀ c ∈ today.toList, isIdChar c = true) :
    ∃ B S, normalizeSessionId branch today rootName raw = B ++ "@" ++ S ∧
      B ≠ "" ∧ (∀ c ∈ B.toList, isIdChar c = true) ∧
      S ≠ "" ∧ (∀ c ∈ S.toList, isIdChar c = true) ∧
      (S = "unknown" → branch = none ∨ branch = some "" ∨
        ∃ b, branch = some b ∧ sanitizeIdPart b = "unknown") := by
  simp only [normalizeSessionId]
  refine ⟨_, _, rfl, sanitizeIdPart_ne_empty _, sanitizeIdPart_chars _, ?_⟩
  apply resolveSuffix_props branch today _ ht0 htc
  cases (splitAtFirst2 '@' (jsTrim raw)).2 with
  | none => exact Or.inl rfl
  | some s =>
    by_cases hs : s = ""
    · simp [hs]
    · simp only [if_neg hs]
      exact Or.inr ⟨s, rfl⟩

/-- C9.  Session normalization is idempotent — `normalize (normalize x) =
normalize x` for every raw session string and workspace root (modelled by
the basename `rootName`, the cached branch-lookup result `branch` and the
date suffix `today = YYYYMMDD`) — and the result always splits as
`base@suffix` with both sanitized segments nonempty and inside
`[A-Za-z0-9._-]+`. -/
theorem normalizeSessionId_idempotent (branch : Option String)
    (today rootName raw : String) (ht0 : today ≠ "")
    (htc : ∀ c ∈ today.toList, isIdChar c = true) :
    normalizeSessionId branch today rootName
        (normalizeSessionId branch today rootName raw) =
      normalizeSessionId branch today rootName raw ∧
    ∃ B S, normalizeSessionId branch today rootName raw = B ++ "@" ++ S ∧
      B ≠ "" ∧ (∀ c ∈ B.toList, isIdChar c = true) ∧
      S ≠ "" ∧ (∀ c ∈ S.toList, isIdChar c = true) := by
  obtain ⟨B, S, heq, hB0, hBc, hS0, hSc, hunk⟩ :=
    normalizeSessionId_shape branch today rootName raw ht0 htc
  refine ⟨?_, B, S, heq, hB0, hBc, hS0, hSc⟩
  rw [heq, normalizeSessionId_wellformed branch today rootName B S hB0 hBc hS0 hSc]
  by_cases hu : S = "unknown"
  · rw [hu, resolveSuffix_unknown branch today (hunk hu)]
  · rw [resolveSuffix_fixed branch today S hS0 hu]

/-- Witness for C9: with a cached branch `feature/session`, date suffix
`20261011` and root basename `proj`, normalizing `proj@unknown` is already a
fixed point of a second normalization, and the segments are sanitized. -/
theorem normalizeSessionId_idempotent_witness :
    normalizeSessionId (some "feature/session") "20261011" "proj"
        (normalizeSessionId (some "feature/session") "20261011" "proj"
          "proj@unknown") =
      normalizeSessionId (some "feature/session") "20261011" "proj"
        "proj@unknown" ∧
    ∃ B S, normalizeSessionId (some "feature/session") "20261011" "proj"
        "proj@unknown" = B ++ "@" ++ S ∧
      B ≠ "" ∧ (∀ c ∈ B.toList, isIdChar c = true) ∧
      S ≠ "" ∧ (∀ c ∈ S.toList, isIdChar c = true) :=
  normalizeSessionId_idempotent (some "feature/session") "20261011" "proj"
    "proj@unknown" (by decide) (by decide)

/-! ## Commit-pipeline lemmas shared by C1, C2, C4, C5, C6, C7 -/

/-- Integrity of the content-addressed pool: every file's name is the hash
of its contents. -/
def PoolIntegrity (hash : String → String) (pool : Pool) : Prop :=
  ∀ e ∈ pool, e.1 = hash e.2

theorem mem_writeFileIfAbsent (pool : Pool) (name contents : String)
    (e : String × String) (h : e ∈ pool) : e ∈ writeFileIfAbsent pool name contents := by
  unfold writeFileIfAbsent
  split_ifs
  · exact h
  · exact List.mem_append_left _ h

theorem writeFileIfAbsent_integrity (hash : String → String) (pool : Pool)
    (t : String) (hint : PoolIntegrity hash pool) :
    PoolIntegrity hash (writeFileIfAbsent pool (hash t) t) := by
  unfold writeFileIfAbsent
  split_ifs
  · exact hint
  · intro e he
    rcases List.mem_append.mp he with he | he
    · exact hint e he
    · simp only [List.mem_singleton] at he
      rw [he]

theorem self_mem_writeFileIfAbsent (hash : String → String) (pool : Pool)
    (t : String) (hint : PoolIntegrity hash pool)
    (hinj : ∀ x y, hash x = hash y → x = y) :
    (hash t, t) ∈ writeFileIfAbsent pool (hash t) t := by
  unfold writeFileIfAbsent
  split_ifs with h
  · rcases List.any_eq_true.mp h with ⟨e, he, hid⟩
    simp only [decide_eq_true_eq] at hid
    have h2 : e.1 = hash e.2 := hint e he
    have h3 : e.2 = t := hinj e.2 t (by rw [← h2, hid])
    have : e = (hash t, t) := by
      rw [Prod.ext_iff]
      exact ⟨hid, h3⟩
    rw [← this]
    exact he
  · exact List.mem_append_right _ (by simp)

/-- Characterization of the pool effect of `prepareArtifact`: the pool is
unchanged (pointer branch) or extended by one content-addressed write. -/
theorem prepareArtifact_pool (hash : String → String) (ws : String → Option String)
    (a : ArtifactInput) (ts : String) (pool : Pool) (pa : PreparedArtifact)
    (pool1 : Pool) (h : prepareArtifact hash ws a ts pool = some (pa, pool1)) :
    pool1 = pool ∨ ∃ t, pool1 = writeFileIfAbsent pool (hash t) t := by
  simp only [prepareArtifact] at h
  cases hres : resolveArtifactText ws a ts (a.meta.getD {}) with
  | none => rw [hres] at h; cases h
  | some tm =>
    obtain ⟨text, meta⟩ := tm
    rw [hres] at h
    cases text with
    | some t =>
      simp only [Option.some.injEq, Prod.mk.injEq] at h
      exact Or.inr ⟨t, h.2.symm⟩
    | none =>
      cases huri : a.uri with
      | some u =>
        rw [huri] at h
        dsimp only at h
        by_cases hu0 : u = ""
        · rw [if_pos hu0] at h
          simp only [prepareEmptyFallback, Option.some.injEq, Prod.mk.injEq] at h
          exact Or.inr ⟨"", h.2.symm⟩
        · rw [if_neg hu0] at h
          simp only [Option.some.injEq, Prod.mk.injEq] at h
          exact Or.inl h.2.symm
      | none =>
        rw [huri] at h
        simp only [prepareEmptyFallback, Option.some.injEq, Prod.mk.injEq] at h
        exact Or.inr ⟨"", h.2.symm⟩

theorem prepareArtifact_pool_mono (hash : String → String)
    (ws : String → Option String) (a : ArtifactInput) (ts : String)
    (pool : Pool) (pa : PreparedArtifact) (pool1 : Pool)
    (h : prepareArtifact hash ws a ts pool = some (pa, pool1)) :
    ∀ e ∈ pool, e ∈ pool1 := by
  rcases prepareArtifact_pool hash ws a ts pool pa pool1 h with rfl | ⟨t, rfl⟩
  · exact fun e he => he
  · exact fun e he => mem_writeFileIfAbsent pool (hash t) t e he

theorem prepareArtifact_integrity (hash : String → String)
    (ws : String → Option String) (a : ArtifactInput) (ts : String)
    (pool : Pool) (pa : PreparedArtifact) (pool1 : Pool)
    (h : prepareArtifact hash ws a ts pool = some (pa, pool1))
    (hint : PoolIntegrity hash pool) : PoolIntegrity hash pool1 := by
  rcases prepareArtifact_pool hash ws a ts pool pa pool1 h with rfl | ⟨t, rfl⟩
  · exact hint
  · exact writeFileIfAbsent_integrity hash pool t hint

/-- Upserting an artifact row touches only the `artifacts` table. -/
theorem upsertArtifact_other (db : DB) (r : ArtifactRow) :
    (upsertArtifact db r).events = db.events ∧
      (upsertArtifact db r).facts = db.facts ∧
      (upsertArtifact db r).tasks = db.tasks := by
  unfold upsertArtifact
  split_ifs <;> exact ⟨rfl, rfl, rfl⟩

theorem processArtifacts_other (hash : String → String)
    (ws : String → Option String) (ts : String) :
    ∀ (arts : List ArtifactInput) (db : DB) (pool : Pool) (db2 : DB)
      (pool2 : Pool) (ids : List String),
      processArtifacts hash ws ts db pool arts = some (db2, pool2, ids) →
      db2.events = db.events ∧ db2.facts = db.facts ∧ db2.tasks = db.tasks ∧
        ids.length = arts.length ∧ (∀ e ∈ pool, e ∈ pool2) ∧
        (PoolIntegrity hash pool → PoolIntegrity hash pool2) := by
  intro arts
  induction arts with
  | nil =>
    intro db pool db2 pool2 ids h
    simp only [processArtifacts, Option.some.injEq, Prod.mk.injEq] at h
    obtain ⟨rfl, rfl, rfl⟩ := h
    exact ⟨rfl, rfl, rfl, rfl, fun e he => he, fun hint => hint⟩
  | cons a rest ih =>
    intro db pool db2 pool2 ids h
    simp only [processArtifacts] at h
    cases hpa : prepareArtifact hash ws a ts pool with
    | none => rw [hpa] at h; cases h
    | some pr =>
      obtain ⟨pa, pool1⟩ := pr
      rw [hpa] at h
      dsimp only at h
      cases hrec : processArtifacts hash ws ts (upsertArtifact db pa.record) pool1 rest with
      | none => rw [hrec] at h; cases h
      | some trip =>
        obtain ⟨db2', pool2', ids'⟩ := trip
        rw [hrec] at h
        simp only [Option.some.injEq, Prod.mk.injEq] at h
        obtain ⟨rfl, rfl, rfl⟩ := h
        obtain ⟨he, hf, htk, hlen, hmono, hint⟩ :=
          ih (upsertArtifact db pa.record) pool1 db2' pool2' ids' hrec
        obtain ⟨ue, uf, ut⟩ := upsertArtifact_other db pa.record
        refine ⟨he.trans ue, hf.trans uf, htk.trans ut, by simp [hlen], ?_, ?_⟩
        · exact fun e hemem => hmono e
            (prepareArtifact_pool_mono hash ws a ts pool pa pool1 hpa e hemem)
        · exact fun hint0 => hint
            (prepareArtifact_integrity hash ws a ts pool pa pool1 hpa hint0)

/-- The task step touches only the `tasks` table, and a JS-truthy task title
sets the current task id to the derived `buildTaskId`. -/
theorem commitTaskStep_other (db : DB) (args : StateFrameInput) (ts : String) :
    (commitTaskStep db args ts).1.events = db.events ∧
      (commitTaskStep db args ts).1.facts = db.facts ∧
      (commitTaskStep db args ts).1.artifacts = db.artifacts := by
  unfold commitTaskStep upsertTask
  cases args.task with
  | none => exact ⟨rfl, rfl, rfl⟩
  | some t =>
    dsimp only
    split_ifs <;> exact ⟨rfl, rfl, rfl⟩

theorem commitTaskStep_current (db : DB) (args : StateFrameInput) (ts : String)
    (title : String) (htask : args.task = some title) (h0 : title ≠ "") :
    (commitTaskStep db args ts).2 = some (buildTaskId title) := by
  unfold commitTaskStep
  rw [htask]
  dsimp only
  rw [if_neg h0]

/-- The decision loop appends exactly the rows of `eventsFrom` and touches
no other table. -/
theorem processDecisions_spec (rnd : Nat → String) (sessionId : String)
    (cur : Option String) (ts : String) (aids : List String) :
    ∀ (ds : List DecisionInput) (db : DB) (i : Nat),
      (processDecisions rnd sessionId cur ts aids db i ds).events =
        db.events ++ eventsFrom rnd sessionId cur ts aids i ds ∧
      (processDecisions rnd sessionId cur ts aids db i ds).facts = db.facts ∧
      (processDecisions rnd sessionId cur ts aids db i ds).artifacts =
        db.artifacts := by
  intro ds
  induction ds with
  | nil => intro db i; simp [processDecisions, eventsFrom]
  | cons d rest ih =>
    intro db i
    simp only [processDecisions, eventsFrom]
    obtain ⟨he, hf, ha⟩ := ih (insertEvent db (mkEventRow rnd sessionId cur ts aids i d)) (i + 1)
    refine ⟨?_, hf.trans rfl, ha.trans rfl⟩
    rw [he]
    simp [insertEvent]

theorem eventsFrom_get (rnd : Nat → String) (sessionId : String)
    (cur : Option String) (ts : String) (aids : List String) :
    ∀ (ds : List DecisionInput) (i j : Nat),
      (eventsFrom rnd sessionId cur ts aids i ds).get? j =
        (ds.get? j).map (fun d => mkEventRow rnd sessionId cur ts aids (i + j) d) := by
  intro ds
  induction ds with
  | nil => intro i j; simp [eventsFrom]
  | cons d rest ih =>
    intro i j
    cases j with
    | zero => simp [eventsFrom]
    | succ j =>
      simp only [eventsFrom, List.get?_cons_succ, ih (i + 1) j]
      have : i + 1 + j = i + (j + 1) := by omega
      rw [this]

/-- The fact loop touches only the `facts` table. -/
theorem processFacts_other (hash : String → String) :
    ∀ (fs : List FactInput) (db : DB),
      (processFacts hash db fs).events = db.events ∧
      (processFacts hash db fs).artifacts = db.artifacts := by
  intro fs
  induction fs with
  | nil => intro db; exact ⟨rfl, rfl⟩
  | cons f rest ih =>
    intro db
    simp only [processFacts]
    obtain ⟨he, ha⟩ := ih (upsertFact db
      ⟨factIdFor hash f.key (f.scope.getD "repo"), f.key, f.value, f.scope.getD "repo"⟩)
    constructor
    · rw [he]
      unfold upsertFact
      split_ifs <;> rfl
    · rw [ha]
      unfold upsertFact
      split_ifs <;> rfl

/-- Inversion of a successful `handleMemoryCommit`: the artifact step
succeeded with the returned ids, and the final store and pool are the fact
step's store and its pruned pool. -/
theorem handleMemoryCommit_inv (hash : String → String)
    (ws : String → Option String) (rnd : Nat → String) (db : DB) (pool : Pool)
    (args : StateFrameInput) (ts : String) (db' : DB) (pool' : Pool)
    (ids : List String)
    (hc : handleMemoryCommit hash ws rnd db pool args ts = some (db', pool', ids)) :
    ∃ db2 pool2,
      processArtifacts hash ws ts (commitTaskStep db args ts).1 pool
        args.artifacts = some (db2, pool2, ids) ∧
      db' = processFacts hash
        (processDecisions rnd args.session_id (commitTaskStep db args ts).2 ts
          ids db2 0 args.decisions) args.facts ∧
      pool' = prunePool db' pool2 := by
  simp only [handleMemoryCommit] at hc
  cases hpa : processArtifacts hash ws ts (commitTaskStep db args ts).1 pool
      args.artifacts with
  | none => rw [hpa] at hc; cases hc
  | some trip =>
    obtain ⟨db2, pool2, ids2⟩ := trip
    rw [hpa] at hc
    dsimp only at hc
    rw [Option.some_inj, Prod.mk.injEq, Prod.mk.injEq] at hc
    obtain ⟨h1, h2, h3⟩ := hc
    subst h3
    refine ⟨db2, pool2, rfl, h1.symm, ?_⟩
    rw [← h1]
    exact h2.symm

/-! ## C1: pruning leaves only referenced pool files -/

theorem mem_prunePool (db : DB) (pool : Pool) (e : String × String) :
    e ∈ prunePool db pool ↔ e ∈ pool ∧ e.1 ∈ listArtifactHashes db := by
  unfold prunePool
  rw [List.mem_filter]
  simp

/-- C1.  After the prune step of `handleMemoryCommit` completes, every file
remaining in the artifact pool has its name in `listArtifactHashes` of the
final store; in particular a file whose name is unreferenced is removed,
while files that were in the pool and are referenced by some artifact row
remain. -/
theorem prune_orphans_invariant (hash : String → String)
    (ws : String → Option String) (rnd : Nat → String) (db : DB) (pool : Pool)
    (args : StateFrameInput) (ts : String) (db' : DB) (pool' : Pool)
    (ids : List String)
    (hc : handleMemoryCommit hash ws rnd db pool args ts = some (db', pool', ids)) :
    (∀ e ∈ pool', e.1 ∈ listArtifactHashes db') ∧
      (∀ n c, n ∉ listArtifactHashes db' → (n, c) ∉ pool') ∧
      (∀ n c, (n, c) ∈ pool → n ∈ listArtifactHashes db' → (n, c) ∈ pool') := by
  obtain ⟨db2, pool2, hpa, hdb, hpool⟩ :=
    handleMemoryCommit_inv hash ws rnd db pool args ts db' pool' ids hc
  obtain ⟨_, _, _, _, hmono, _⟩ := processArtifacts_other hash ws ts
    args.artifacts (commitTaskStep db args ts).1 pool db2 pool2 ids hpa
  subst hpool
  refine ⟨?_, ?_, ?_⟩
  · exact fun e he => ((mem_prunePool db' pool2 e).mp he).2
  · intro n c hn hmem
    exact hn ((mem_prunePool db' pool2 (n, c)).mp hmem).2
  · intro n c hmem hn
    exact (mem_prunePool db' pool2 (n, c)).mpr ⟨hmono (n, c) hmem, hn⟩

/-- Witness for C1: a commit over a store referencing hash `"good"` and a
pool holding the referenced file plus an orphan; the orphan is pruned and
the referenced body remains. -/
theorem prune_orphans_invariant_witness :
    ("orphan", "junk") ∉ ((handleMemoryCommit (fun s => s) (fun _ => none)
      (fun _ => "r") { artifacts := [⟨"A", "SNIPPET", "u", "good", 4, {}, "c"⟩] }
      [("good", "body"), ("orphan", "junk")] { session_id := "s" } "t").getD
        ({}, [], [])).2.1 ∧
    ("good", "body") ∈ ((handleMemoryCommit (fun s => s) (fun _ => none)
      (fun _ => "r") { artifacts := [⟨"A", "SNIPPET", "u", "good", 4, {}, "c"⟩] }
      [("good", "body"), ("orphan", "junk")] { session_id := "s" } "t").getD
        ({}, [], [])).2.1 :=
  ⟨(prune_orphans_invariant (fun s => s) (fun _ => none) (fun _ => "r")
      { artifacts := [⟨"A", "SNIPPET", "u", "good", 4, {}, "c"⟩] }
      [("good", "body"), ("orphan", "junk")] { session_id := "s" } "t"
      _ _ _ rfl).2.1 "orphan" "junk" (by decide),
    (prune_orphans_invariant (fun s => s) (fun _ => none) (fun _ => "r")
      { artifacts := [⟨"A", "SNIPPET", "u", "good", 4, {}, "c"⟩] }
      [("good", "body"), ("orphan", "junk")] { session_id := "s" } "t"
      _ _ _ rfl).2.2 "good" "body" (by decide) (by decide)⟩

/-! ## C2: bodied artifacts are content-addressed -/

/-- The artifact row the bodied text branch of `prepareArtifact` builds for a
descriptor whose resolved body text is `T`. -/
def textArtifactRecord (hash : String → String) (a : ArtifactInput)
    (ts T : String) : ArtifactRow :=
  let hashv := hash T
  let id := a.id.getD ("P-" ++ hashv.take 8)
  let meta0 := a.meta.getD {}
  let meta1 := if meta0.origin.isNone then
      { meta0 with origin := some ⟨"text", ts⟩ }
    else meta0
  ⟨id, a.kind, "artifact://sha256/" ++ hashv, hashv, T.utf8ByteSize, meta1, ts⟩

/-- On a descriptor whose text is non-empty (or that has no path — an empty
text with a path defers to the path branch), `prepareArtifact` takes the
bodied text branch: it returns `textArtifactRecord` and writes the body
into the pool under its hash. -/
theorem prepareArtifact_text (hash : String → String)
    (ws : String → Option String) (a : ArtifactInput) (ts : String)
    (pool : Pool) (T : String) (ht : a.text = some T)
    (hcase : T ≠ "" ∨ a.path = none) :
    prepareArtifact hash ws a ts pool =
      some (⟨(textArtifactRecord hash a ts T).id, textArtifactRecord hash a ts T⟩,
        writeFileIfAbsent pool (hash T) T) := by
  have hres : resolveArtifactText ws a ts (a.meta.getD {}) =
      some (some T, a.meta.getD {}) := by
    unfold resolveArtifactText
    rcases hcase with hT | hpath
    · have hfalsy : jsFalsyText a.text = false := by
        rw [ht]
        simp [jsFalsyText, hT]
      cases hp : a.path with
      | none => rw [ht]
      | some p =>
        rw [hfalsy, ht]
    · rw [hpath, ht]
  simp only [prepareArtifact, hres]
  rfl

theorem processArtifacts_text_mem (hash : String → String)
    (ws : String → Option String) (ts : String)
    (hinj : ∀ x y, hash x = hash y → x = y) :
    ∀ (arts : List ArtifactInput) (db : DB) (pool : Pool) (db2 : DB)
      (pool2 : Pool) (ids : List String), PoolIntegrity hash pool →
      processArtifacts hash ws ts db pool arts = some (db2, pool2, ids) →
      ∀ a ∈ arts, ∀ T, a.text = some T → (T ≠ "" ∨ a.path = none) →
        (hash T, T) ∈ pool2 := by
  intro arts
  induction arts with
  | nil =>
    intro db pool db2 pool2 ids _ _ a ha
    simp at ha
  | cons b rest ih =>
    intro db pool db2 pool2 ids hint h a ha T ht hcase
    simp only [processArtifacts] at h
    cases hpa : prepareArtifact hash ws b ts pool with
    | none => rw [hpa] at h; cases h
    | some pr =>
      obtain ⟨pa, pool1⟩ := pr
      rw [hpa] at h
      dsimp only at h
      cases hrec : processArtifacts hash ws ts (upsertArtifact db pa.record)
          pool1 rest with
      | none => rw [hrec] at h; cases h
      | some trip =>
        obtain ⟨db2', pool2', ids'⟩ := trip
        rw [hrec] at h
        simp only [Option.some.injEq, Prod.mk.injEq] at h
        obtain ⟨rfl, rfl, rfl⟩ := h
        rcases List.mem_cons.mp ha with rfl | ha
        · rw [prepareArtifact_text hash ws a ts pool T ht hcase] at hpa
          have hpool1 : pool1 = writeFileIfAbsent pool (hash T) T :=
            (Prod.mk.injEq _ _ _ _ ▸ Option.some.inj hpa).2.symm ▸ rfl
          obtain ⟨_, _, _, _, hmono, _⟩ := processArtifacts_other hash ws ts
            rest (upsertArtifact db pa.record) pool1 db2' pool2' ids' hrec
          apply hmono
          rw [hpool1]
          exact self_mem_writeFileIfAbsent hash pool T hint hinj
        · exact ih (upsertArtifact db pa.record) pool1 db2' pool2' ids'
            (prepareArtifact_integrity hash ws b ts pool pa pool1 hpa hint)
            hrec a ha T ht hcase

/-- C2 (amended).  For every commit and every artifact descriptor of it that
carries text `T` — where `T` is non-empty or no path is supplied, since an
empty text with a path defers to the path branch — the produced row
`textArtifactRecord` has `uri = "artifact://sha256/<hash T>"`,
`sha256 = hash T` and `size` the UTF-8 byte length of `T`; and whenever that
row is in the final store, the pool file named by its hash survives the
prune with contents exactly `T` (so the artifact body round-trips),
assuming the initial pool is content-addressed and the hash is
collision-free. -/
theorem bodied_artifact_integrity (hash : String → String)
    (ws : String → Option String) (rnd : Nat → String) (db : DB) (pool : Pool)
    (args : StateFrameInput) (ts : String) (db' : DB) (pool' : Pool)
    (ids : List String) (a : ArtifactInput) (T : String)
    (hinj : ∀ x y, hash x = hash y → x = y) (hint : PoolIntegrity hash pool)
    (hc : handleMemoryCommit hash ws rnd db pool args ts = some (db', pool', ids))
    (hmem : a ∈ args.artifacts) (ht : a.text = some T)
    (hcase : T ≠ "" ∨ a.path = none) :
    (textArtifactRecord hash a ts T).uri = "artifact://sha256/" ++ hash T ∧
      (textArtifactRecord hash a ts T).sha256 = hash T ∧
      (textArtifactRecord hash a ts T).size = T.utf8ByteSize ∧
      (textArtifactRecord hash a ts T ∈ db'.artifacts →
        (hash T, T) ∈ pool') := by
  obtain ⟨db2, pool2, hpa, hdb, hpool⟩ :=
    handleMemoryCommit_inv hash ws rnd db pool args ts db' pool' ids hc
  refine ⟨rfl, rfl, rfl, ?_⟩
  intro hrow
  have hinpool2 : (hash T, T) ∈ pool2 :=
    processArtifacts_text_mem hash ws ts hinj args.artifacts
      (commitTaskStep db args ts).1 pool db2 pool2 ids hint hpa a hmem T ht hcase
  have hhash : hash T ∈ listArtifactHashes db' := by
    have := List.mem_map_of_mem (fun r => r.sha256) hrow
    simpa [listArtifactHashes] using this
  rw [hpool]
  exact (mem_prunePool db' pool2 (hash T, T)).mpr ⟨hinpool2, hhash⟩

/-- The commit input of the C2 counterexample: one artifact descriptor
carrying empty text together with a path. -/
def emptyTextPathFrame : StateFrameInput :=
  { session_id := "s"
    artifacts := [{ kind := "SNIPPET", text := some "", path := some "f" }] }

/-- Counterexample to C2 as stated: a descriptor carrying the (empty) text
`""` together with a path is resolved from the workspace file, not from the
text — the stored row has the file span's size 5 and hash, not size 0.  The
hash function is instantiated with a concrete injective function (the
identity). -/
theorem bodied_artifact_counterexample :
    ((handleMemoryCommit (fun s => s) (fun _ => some "hello") (fun _ => "r")
      {} [] emptyTextPathFrame "t").getD ({}, [], [])).1.artifacts.map
        ArtifactRow.size = [5] ∧
    ¬(5 = ("" : String).utf8ByteSize) := by
  constructor <;> decide

/-- The commit input of the C2 witness: one artifact descriptor with text
`"hi"`. -/
def hiTextFrame : StateFrameInput :=
  { session_id := "s", artifacts := [{ kind := "SNIPPET", text := some "hi" }] }

/-- Witness for C2: committing one artifact with text `"hi"` (identity hash,
empty initial pool) leaves the pool file `("hi", "hi")` after the prune, and
the row records the 2-byte size. -/
theorem bodied_artifact_integrity_witness :
    (textArtifactRecord (fun s => s)
      { kind := "SNIPPET", text := some "hi" } "t" "hi").size = 2 ∧
    ("hi", "hi") ∈ ((handleMemoryCommit (fun s => s) (fun _ => none)
      (fun _ => "r") {} [] hiTextFrame "t").getD ({}, [], [])).2.1 :=
  ⟨by decide,
    (bodied_artifact_integrity (fun s => s) (fun _ => none) (fun _ => "r")
      {} [] hiTextFrame "t"
      _ _ _ { kind := "SNIPPET", text := some "hi" } "hi"
      (fun x y h => h) (by intro e he; cases he) rfl (by decide) rfl
      (Or.inl (by decide))).2.2.2 (by decide)⟩

/-! ## C4: facts are deduplicated by their deterministic id -/

theorem factUpdate_id (f : FactRow) (r : FactRow) :
    (if r.id = f.id then { r with value := f.value, scope := f.scope } else r).id
      = r.id := by
  split_ifs <;> rfl

theorem filter_factUpdate_none (f : FactRow) (l : List FactRow)
    (hall : ∀ x ∈ l, ¬(x.id = f.id)) :
    ((l.map (fun r => if r.id = f.id then
        { r with value := f.value, scope := f.scope } else r)).filter
      (fun r => decide (r.id = f.id))) = [] := by
  induction l with
  | nil => rfl
  | cons r rest ih =>
    have hr : ¬(r.id = f.id) := hall r (by simp)
    simp only [List.map_cons, List.filter_cons, if_neg hr, decide_eq_true_eq]
    exact ih (fun x hx => hall x (by simp [hx]))

theorem filter_factUpdate (f : FactRow) (l : List FactRow)
    (hn : (l.map FactRow.id).Nodup) (hany : l.any (fun r => r.id = f.id) = true) :
    (((l.map (fun r => if r.id = f.id then
        { r with value := f.value, scope := f.scope } else r)).filter
      (fun r => decide (r.id = f.id))).map FactRow.value) = [f.value] := by
  induction l with
  | nil => simp at hany
  | cons r rest ih =>
    by_cases hr : r.id = f.id
    · simp only [List.map_cons, List.filter_cons, if_pos hr, decide_eq_true_eq]
      have hnotin : ∀ x ∈ rest, ¬(x.id = f.id) := by
        intro x hx hxid
        have : r.id ∈ rest.map FactRow.id := by
          rw [hr, ← hxid]
          exact List.mem_map_of_mem FactRow.id hx
        exact (List.nodup_cons.mp hn).1 this
      rw [filter_factUpdate_none f rest hnotin]
      rfl
    · simp only [List.map_cons, List.filter_cons, if_neg hr, decide_eq_true_eq]
      have hany' : rest.any (fun x => x.id = f.id) = true := by
        rcases List.any_eq_true.mp hany with ⟨x, hx, hxid⟩
        rcases List.mem_cons.mp hx with rfl | hx
        · exact absurd (by simpa using hxid) hr
        · exact List.any_eq_true.mpr ⟨x, hx, hxid⟩
      exact ih (List.nodup_cons.mp hn).2 hany'

theorem upsertFact_value (db : DB) (f : FactRow)
    (hn : (db.facts.map FactRow.id).Nodup) :
    (((upsertFact db f).facts.filter (fun r => decide (r.id = f.id))).map
      FactRow.value) = [f.value] := by
  unfold upsertFact
  split_ifs with hany
  · exact filter_factUpdate f db.facts hn hany
  · show ((db.facts ++ [f]).filter (fun r => decide (r.id = f.id))).map
      FactRow.value = [f.value]
    rw [List.filter_append]
    have hnil : db.facts.filter (fun r => decide (r.id = f.id)) = [] := by
      apply List.filter_eq_nil_iff.mpr
      intro x hx
      simp only [decide_eq_true_eq]
      have hall : ∀ y ∈ db.facts, ¬(y.id = f.id) := by simpa using hany
      exact hall x hx
    rw [hnil]
    simp

theorem upsertFact_nodup (db : DB) (f : FactRow)
    (hn : (db.facts.map FactRow.id).Nodup) :
    ((upsertFact db f).facts.map FactRow.id).Nodup := by
  unfold upsertFact
  split_ifs with hany
  · show ((db.facts.map _).map FactRow.id).Nodup
    rw [List.map_map]
    have : (FactRow.id ∘ fun r => if r.id = f.id then
        { r with value := f.value, scope := f.scope } else r) = FactRow.id := by
      funext r
      exact factUpdate_id f r
    rw [this]
    exact hn
  · show ((db.facts ++ [f]).map FactRow.id).Nodup
    rw [List.map_append, List.nodup_append]
    refine ⟨hn, by simp, ?_⟩
    intro x hx
    simp only [List.map_cons, List.map_nil, List.mem_singleton]
    intro hxf
    rcases List.mem_map.mp hx with ⟨r, hr, hrid⟩
    have hall : ∀ y ∈ db.facts, ¬(y.id = f.id) := by simpa using hany
    exact hall r hr (by rw [hrid, hxf])

theorem upsertFact_facts_congr (db1 db2 : DB) (f : FactRow)
    (h : db1.facts = db2.facts) :
    (upsertFact db1 f).facts = (upsertFact db2 f).facts := by
  unfold upsertFact
  rw [h]
  split_ifs <;> rfl

/-- The commit input used by C4: a single fact. -/
def factsOnlyFrame (session key value scope : String) : StateFrameInput :=
  { session_id := session, facts := [⟨key, value, some scope⟩] }

theorem factsOnly_facts (hash : String → String) (ws : String → Option String)
    (rnd : Nat → String) (db : DB) (pool : Pool)
    (session key v scope ts : String) (db' : DB) (pool' : Pool)
    (ids : List String)
    (hc : handleMemoryCommit hash ws rnd db pool
      (factsOnlyFrame session key v scope) ts = some (db', pool', ids)) :
    db'.facts =
      (upsertFact db ⟨factIdFor hash key scope, key, v, scope⟩).facts := by
  obtain ⟨db2, pool2, hpa, hdb, _⟩ :=
    handleMemoryCommit_inv hash ws rnd db pool
      (factsOnlyFrame session key v scope) ts db' pool' ids hc
  obtain ⟨_, hf2, _, _, _, _⟩ := processArtifacts_other hash ws ts
    (factsOnlyFrame session key v scope).artifacts
    (commitTaskStep db (factsOnlyFrame session key v scope) ts).1 pool db2 pool2
    ids hpa
  obtain ⟨_, hfT, _⟩ :=
    commitTaskStep_other db (factsOnlyFrame session key v scope) ts
  obtain ⟨_, hfD, _⟩ := processDecisions_spec rnd
    (factsOnlyFrame session key v scope).session_id
    (commitTaskStep db (factsOnlyFrame session key v scope) ts).2 ts ids
    (factsOnlyFrame session key v scope).decisions db2 0
  rw [hdb]
  show (upsertFact _ _).facts = _
  apply upsertFact_facts_congr
  rw [hfD, hf2, hfT]

/-- C4.  Fact rows are deduplicated by the deterministic id
`"F-" + sha256(key + "::" + scope)[:16]`: committing the same `(key, scope)`
twice with different values leaves, in a store whose fact ids were unique,
exactly one row with that id carrying the latest value, and fact ids stay
unique (so at most one row ever exists per `(key, scope)`). -/
theorem fact_dedup (hash : String → String) (ws : String → Option String)
    (rnd : Nat → String) (db : DB) (pool : Pool)
    (session key scope v1 v2 ts1 ts2 : String) (db1 : DB) (pool1 : Pool)
    (ids1 : List String) (db2 : DB) (pool2 : Pool) (ids2 : List String)
    (hscope : scope ≠ "") (hn : (db.facts.map FactRow.id).Nodup)
    (hc1 : handleMemoryCommit hash ws rnd db pool
      (factsOnlyFrame session key v1 scope) ts1 = some (db1, pool1, ids1))
    (hc2 : handleMemoryCommit hash ws rnd db1 pool1
      (factsOnlyFrame session key v2 scope) ts2 = some (db2, pool2, ids2)) :
    ((db2.facts.filter
        (fun r => decide (r.id = factIdFor hash key scope))).map FactRow.value
      = [v2]) ∧
      factIdFor hash key scope = "F-" ++ (hash (key ++ "::" ++ scope)).take 16 ∧
      (db2.facts.map FactRow.id).Nodup := by
  have h1 := factsOnly_facts hash ws rnd db pool session key v1 scope ts1
    db1 pool1 ids1 hc1
  have h2 := factsOnly_facts hash ws rnd db1 pool1 session key v2 scope ts2
    db2 pool2 ids2 hc2
  have hn1 : (db1.facts.map FactRow.id).Nodup := by
    rw [h1]
    exact upsertFact_nodup db ⟨factIdFor hash key scope, key, v1, scope⟩ hn
  refine ⟨?_, ?_, ?_⟩
  · rw [h2]
    exact upsertFact_value db1 ⟨factIdFor hash key scope, key, v2, scope⟩ hn1
  · unfold factIdFor
    rw [if_neg hscope]
  · rw [h2]
    exact upsertFact_nodup db1 ⟨factIdFor hash key scope, key, v2, scope⟩ hn1

/-- Witness for C4: committing `(build, repo)` twice (values
`npm run build` then `pnpm build`) from an empty store leaves one row whose
value is `pnpm build`, with the identity hash standing in for SHA-256. -/
theorem fact_dedup_witness :
    (((handleMemoryCommit (fun s => s) (fun _ => none) (fun _ => "r")
      ((handleMemoryCommit (fun s => s) (fun _ => none) (fun _ => "r") {} []
        (factsOnlyFrame "s" "build" "npm run build" "repo") "t1").getD
          ({}, [], [])).1
      ((handleMemoryCommit (fun s => s) (fun _ => none) (fun _ => "r") {} []
        (factsOnlyFrame "s" "build" "npm run build" "repo") "t1").getD
          ({}, [], [])).2.1
      (factsOnlyFrame "s" "build" "pnpm build" "repo") "t2").getD
        ({}, [], [])).1.facts.filter
      (fun r => decide (r.id = factIdFor (fun s => s) "build" "repo"))).map
        FactRow.value = ["pnpm build"] ∧
    factIdFor (fun s => s) "build" "repo" =
      "F-" ++ (("build::repo" : String)).take 16 :=
  ⟨(fact_dedup (fun s => s) (fun _ => none) (fun _ => "r") {} [] "s" "build"
      "repo" "npm run build" "pnpm build" "t1" "t2" _ _ _ _ _ _
      (by decide) (by decide) rfl rfl).1,
    (fact_dedup (fun s => s) (fun _ => none) (fun _ => "r") {} [] "s" "build"
      "repo" "npm run build" "pnpm build" "t1" "t2" _ _ _ _ _ _
      (by decide) (by decide) rfl rfl).2.1⟩

/-! ## C5: events link to the commit's current task -/

/-- The events a successful commit appends: `eventsFrom` over the decisions,
with the current task id derived from a JS-truthy task title. -/
theorem commit_events (hash : String → String) (ws : String → Option String)
    (rnd : Nat → String) (db : DB) (pool : Pool) (args : StateFrameInput)
    (ts : String) (db' : DB) (pool' : Pool) (ids : List String)
    (hc : handleMemoryCommit hash ws rnd db pool args ts = some (db', pool', ids)) :
    db'.events = db.events ++ eventsFrom rnd args.session_id
      (commitTaskStep db args ts).2 ts ids 0 args.decisions ∧
      ids.length = args.artifacts.length := by
  obtain ⟨db2, pool2, hpa, hdb, _⟩ :=
    handleMemoryCommit_inv hash ws rnd db pool args ts db' pool' ids hc
  obtain ⟨he2, _, _, hlen, _, _⟩ := processArtifacts_other hash ws ts
    args.artifacts (commitTaskStep db args ts).1 pool db2 pool2 ids hpa
  obtain ⟨heT, _, _⟩ := commitTaskStep_other db args ts
  obtain ⟨heD, hfD, haD⟩ := processDecisions_spec rnd args.session_id
    (commitTaskStep db args ts).2 ts ids args.decisions db2 0
  obtain ⟨heF, _⟩ := processFacts_other hash args.facts
    (processDecisions rnd args.session_id (commitTaskStep db args ts).2 ts ids
      db2 0 args.decisions)
  constructor
  · rw [hdb, heF, heD, he2, heT]
  · exact hlen

/-- C5.  For every commit whose input carries a (non-empty) task title,
every event inserted by that commit has `task_id` equal to the derived
`buildTaskId title` unless the decision supplied its own `task_id`; and the
derived id for `"Implement feature"` is `"T-implement-fe"`. -/
theorem commit_event_task_link (hash : String → String)
    (ws : String → Option String) (rnd : Nat → String) (db : DB) (pool : Pool)
    (args : StateFrameInput) (ts : String) (db' : DB) (pool' : Pool)
    (ids : List String) (title : String) (htask : args.task = some title)
    (h0 : title ≠ "")
    (hc : handleMemoryCommit hash ws rnd db pool args ts = some (db', pool', ids)) :
    (∃ newEvts, db'.events = db.events ++ newEvts ∧
      ∀ j d, args.decisions.get? j = some d →
        ∃ e, newEvts.get? j = some e ∧
          e.task_id = (match d.task_id with
            | some t => some t
            | none => some (buildTaskId title))) ∧
      buildTaskId "Implement feature" = "T-implement-fe" := by
  obtain ⟨hev, _⟩ :=
    commit_events hash ws rnd db pool args ts db' pool' ids hc
  have hcur : (commitTaskStep db args ts).2 = some (buildTaskId title) :=
    commitTaskStep_current db args ts title htask h0
  refine ⟨⟨eventsFrom rnd args.session_id (commitTaskStep db args ts).2 ts ids 0
    args.decisions, hev, ?_⟩, by decide⟩
  intro j d hget
  refine ⟨mkEventRow rnd args.session_id (commitTaskStep db args ts).2 ts ids
    j d, ?_, ?_⟩
  · rw [eventsFrom_get rnd args.session_id (commitTaskStep db args ts).2 ts ids
      args.decisions 0 j, hget]
    simp
  · show (match d.task_id with
      | some t => some t
      | none => (commitTaskStep db args ts).2) = _
    rw [hcur]

/-- The commit input of the C5 witness: the task `Implement feature` and a
single DECISION. -/
def taskDecisionFrame : StateFrameInput :=
  { session_id := "s"
    task := some "Implement feature"
    decisions := [{ type := "DECISION", summary := "Chose approach" }] }

/-- The result of committing `taskDecisionFrame` on an empty store. -/
def taskDecisionOut : DB × Pool × List String :=
  (handleMemoryCommit (fun s => s) (fun _ => none) (fun _ => "r") {} []
    taskDecisionFrame "t").getD ({}, [], [])

/-- Witness for C5: committing task `Implement feature` with one DECISION
(empty store) stores an event whose `task_id` is `T-implement-fe`. -/
theorem commit_event_task_link_witness :
    ∃ e, taskDecisionOut.1.events.get? 0 = some e ∧
      e.task_id = some "T-implement-fe" := by
  obtain ⟨⟨newEvts, hev, hall⟩, hbuild⟩ :=
    commit_event_task_link (fun s => s) (fun _ => none) (fun _ => "r") {} []
      taskDecisionFrame "t" taskDecisionOut.1 taskDecisionOut.2.1
      taskDecisionOut.2.2 "Implement feature" rfl (by decide) rfl
  obtain ⟨e, hget, htid⟩ := hall 0 { type := "DECISION", summary := "Chose approach" } rfl
  refine ⟨e, ?_, ?_⟩
  · rw [hev]
    simpa using hget
  · rw [htid, hbuild]

/-! ## C6: evidence defaulting -/

/-- C6.  A decision that supplies an evidence list has exactly that list
stored verbatim as its event's `evidence_ids`, and a decision that omits
evidence has `evidence_ids` equal to the complete ordered list of artifact
ids produced by the same commit (the returned `ids`, one per artifact
descriptor, fully built before any event is inserted). -/
theorem commit_evidence_defaulting (hash : String → String)
    (ws : String → Option String) (rnd : Nat → String) (db : DB) (pool : Pool)
    (args : StateFrameInput) (ts : String) (db' : DB) (pool' : Pool)
    (ids : List String)
    (hc : handleMemoryCommit hash ws rnd db pool args ts = some (db', pool', ids)) :
    ids.length = args.artifacts.length ∧
      ∃ newEvts, db'.events = db.events ++ newEvts ∧
        ∀ j d, args.decisions.get? j = some d →
          ∃ e, newEvts.get? j = some e ∧
            (∀ l, d.evidence = some l → e.evidence_ids = l) ∧
            (d.evidence = none → e.evidence_ids = ids) := by
  obtain ⟨hev, hlen⟩ :=
    commit_events hash ws rnd db pool args ts db' pool' ids hc
  refine ⟨hlen, eventsFrom rnd args.session_id (commitTaskStep db args ts).2 ts
    ids 0 args.decisions, hev, ?_⟩
  intro j d hget
  refine ⟨mkEventRow rnd args.session_id (commitTaskStep db args ts).2 ts ids
    j d, ?_, ?_, ?_⟩
  · rw [eventsFrom_get rnd args.session_id (commitTaskStep db args ts).2 ts ids
      args.decisions 0 j, hget]
    simp
  · intro l hl
    show d.evidence.getD ids = l
    rw [hl]
    rfl
  · intro hl
    show d.evidence.getD ids = ids
    rw [hl]
    rfl

/-- The commit input of the C6 witness: one text artifact and two decisions,
the first with explicit evidence, the second with none. -/
def evidenceFrame : StateFrameInput :=
  { session_id := "s"
    artifacts := [{ kind := "SNIPPET", text := some "hi" }]
    decisions := [{ type := "DECISION", summary := "a", evidence := some ["X"] },
      { type := "NOTE", summary := "b" }] }

/-- The result of committing `evidenceFrame` on an empty store. -/
def evidenceOut : DB × Pool × List String :=
  (handleMemoryCommit (fun s => s) (fun _ => none) (fun _ => "r") {} []
    evidenceFrame "t").getD ({}, [], [])

/-- Witness for C6: the first decision keeps its explicit evidence `["X"]`
verbatim; the second, which omitted evidence, carries the commit's full
artifact-id list `["P-hi"]`. -/
theorem commit_evidence_defaulting_witness :
    ∃ e0 e1,
      evidenceOut.1.events.get? 0 = some e0 ∧ e0.evidence_ids = ["X"] ∧
      evidenceOut.1.events.get? 1 = some e1 ∧ e1.evidence_ids = ["P-hi"] := by
  obtain ⟨hlen, newEvts, hev, hall⟩ :=
    commit_evidence_defaulting (fun s => s) (fun _ => none) (fun _ => "r") {}
      [] evidenceFrame "t" evidenceOut.1 evidenceOut.2.1 evidenceOut.2.2 rfl
  obtain ⟨e0, hget0, hv0, _⟩ := hall 0
    { type := "DECISION", summary := "a", evidence := some ["X"] } rfl
  obtain ⟨e1, hget1, _, hv1⟩ := hall 1 { type := "NOTE", summary := "b" } rfl
  have hids : evidenceOut.2.2 = ["P-hi"] := by decide
  refine ⟨e0, e1, ?_, hv0 ["X"] rfl, ?_, ?_⟩
  · rw [hev]
    simpa using hget0
  · rw [hev]
    simpa using hget1
  · rw [hv1 rfl, ← hids]

/-! ## C7: pointer artifacts -/

/-- The artifact row the pointer branch of `prepareArtifact` builds for a
descriptor that supplies a URI but neither text nor path. -/
def pointerArtifactRecord (hash : String → String) (a : ArtifactInput)
    (ts u : String) : ArtifactRow :=
  let pointerHash := hash u
  let id := a.id.getD ("P-" ++ pointerHash.take 8)
  let meta0 := a.meta.getD {}
  let meta1 := if meta0.pointer.isNone then { meta0 with pointer := some true }
    else meta0
  let originType := if jsStartsWith u "workspace://" then "workspace-uri" else "uri"
  let meta2 := if meta1.origin.isNone then
      { meta1 with origin := some ⟨originType, ts⟩ }
    else meta1
  ⟨id, a.kind, u, pointerHash, 0, meta2, ts⟩

theorem prepareArtifact_pointer (hash : String → String)
    (ws : String → Option String) (a : ArtifactInput) (ts : String)
    (pool : Pool) (u : String) (ht : a.text = none) (hp : a.path = none)
    (hu : a.uri = some u) (hu0 : u ≠ "") :
    prepareArtifact hash ws a ts pool =
      some (⟨(pointerArtifactRecord hash a ts u).id,
        pointerArtifactRecord hash a ts u⟩, pool) := by
  have hres : resolveArtifactText ws a ts (a.meta.getD {}) =
      some (none, a.meta.getD {}) := by
    unfold resolveArtifactText
    rw [hp, ht]
  simp only [prepareArtifact, hres]
  rw [hu]
  dsimp only
  rw [if_neg hu0]
  rfl

/-- C7 (amended).  For every artifact descriptor supplying a non-empty URI
but no text and no path (an empty URI is JS-falsy, so `if (artifact.uri)`
falls through to the empty-body fallback), the prepared row is a pointer
artifact: `uri` is the supplied URI unchanged, `sha256` is the hash of the
URI string, `size = 0`, no file is written to the pool, and — provided the
descriptor's meta does not already carry an origin — `meta.origin.type` is
`"workspace-uri"` when the URI starts with `workspace://` and `"uri"`
otherwise; a caller-supplied origin is preserved verbatim. -/
theorem pointer_artifact_shape (hash : String → String)
    (ws : String → Option String) (a : ArtifactInput) (ts : String)
    (pool : Pool) (u : String) (ht : a.text = none) (hp : a.path = none)
    (hu : a.uri = some u) (hu0 : u ≠ "") :
    prepareArtifact hash ws a ts pool =
      some (⟨(pointerArtifactRecord hash a ts u).id,
        pointerArtifactRecord hash a ts u⟩, pool) ∧
      (pointerArtifactRecord hash a ts u).uri = u ∧
      (pointerArtifactRecord hash a ts u).sha256 = hash u ∧
      (pointerArtifactRecord hash a ts u).size = 0 ∧
      ((a.meta.getD {}).origin = none →
        (pointerArtifactRecord hash a ts u).meta.origin =
          some ⟨if jsStartsWith u "workspace://" then "workspace-uri" else "uri",
            ts⟩) ∧
      (∀ o, (a.meta.getD {}).origin = some o →
        (pointerArtifactRecord hash a ts u).meta.origin = some o) := by
  refine ⟨prepareArtifact_pointer hash ws a ts pool u ht hp hu hu0, rfl, rfl,
    rfl, ?_, ?_⟩
  · intro ho
    by_cases hptr : (a.meta.getD {}).pointer.isNone <;>
      simp [pointerArtifactRecord, hptr, ho]
  · intro o ho
    by_cases hptr : (a.meta.getD {}).pointer.isNone <;>
      simp [pointerArtifactRecord, hptr, ho]

/-- The descriptor of the C7 counterexample: a pointer descriptor whose
caller-supplied meta already carries an origin of type `"custom"`. -/
def customOriginDesc : ArtifactInput :=
  { kind := "SNIPPET", uri := some "u"
    meta := some { origin := some ⟨"custom", "t0"⟩ } }

/-- A second refuting descriptor for C7: it supplies a URI, but the empty
string, which is JS-falsy, so `if (artifact.uri)` falls through to the
empty-body fallback. -/
def emptyUriDesc : ArtifactInput :=
  { kind := "SNIPPET", uri := some "" }

/-- Counterexample to C7 as stated.  First, on a pointer descriptor whose
meta already carries an origin, the stored `meta.origin.type` is the
supplied `"custom"`, not `"uri"` — yet `"u"` does not start with
`workspace://`, so the claim as written demands `"uri"`.  Second, a
descriptor whose URI is the empty string supplies a uri in the claim's
sense, but the source's truthiness guard sends it to the empty-body
fallback: the stored uri is the rewritten `artifact://sha256/...` (not the
supplied URI unchanged), and the pool gains a file, both contradicting the
claim. -/
theorem pointer_artifact_counterexample :
    ((prepareArtifact (fun s => s) (fun _ => none) customOriginDesc "t"
      []).map (fun r => r.1.record.meta.origin)) =
      some (some ⟨"custom", "t0"⟩) ∧
      jsStartsWith "u" "workspace://" = false ∧ ¬("custom" = "uri") ∧
      ((prepareArtifact (fun s => s) (fun _ => none) emptyUriDesc "t"
        []).map (fun r => (r.1.record.uri, r.1.record.meta.origin, r.2))) =
        some ("artifact://sha256/", some ⟨"empty", "t"⟩, [("", "")]) ∧
      ¬("artifact://sha256/" = "") := by
  refine ⟨?_, ?_, ?_, ?_, ?_⟩ <;> decide

/-- Witness for C7: a pointer descriptor for `workspace://README.md` keeps
its URI verbatim, hashes the URI string, has size 0, writes nothing to the
pool, and gets origin type `workspace-uri`. -/
theorem pointer_artifact_shape_witness :
    prepareArtifact (fun s => s) (fun _ => none)
      { kind := "SNIPPET", uri := some "workspace://README.md" } "t" [] =
      some (⟨(pointerArtifactRecord (fun s => s)
          { kind := "SNIPPET", uri := some "workspace://README.md" } "t"
          "workspace://README.md").id,
        pointerArtifactRecord (fun s => s)
          { kind := "SNIPPET", uri := some "workspace://README.md" } "t"
          "workspace://README.md"⟩, []) ∧
      (pointerArtifactRecord (fun s => s)
        { kind := "SNIPPET", uri := some "workspace://README.md" } "t"
        "workspace://README.md").size = 0 ∧
      (pointerArtifactRecord (fun s => s)
        { kind := "SNIPPET", uri := some "workspace://README.md" } "t"
        "workspace://README.md").meta.origin =
          some ⟨"workspace-uri", "t"⟩ := by
  obtain ⟨h1, _, _, h4, h5, _⟩ := pointer_artifact_shape (fun s => s)
    (fun _ => none) { kind := "SNIPPET", uri := some "workspace://README.md" }
    "t" [] "workspace://README.md" rfl rfl rfl (by decide)
  refine ⟨h1, h4, ?_⟩
  rw [h5 rfl]
  decide

end RWM
